import Mathlib

/-!
Verification of the ancient-chinese text pipeline (Go sources):
a Normalizer (`Format` in the formatter file) that repairs raw manuscript
text, and a Structural Compiler (`ConvertToTex` in the tex converter)
that turns the canonical text format into TeX.  Lines are modelled as
lists of characters (Go iterates runes; all slicing in the source happens
at rune boundaries, so the rune-level model is faithful).
-/

namespace AC

abbrev Line := List Char

/-- Go `unicode.IsSpace`: the White_Space code points in Latin-1 plus the
Unicode space separators checked by the Go standard library. -/
def isGoSpace (c : Char) : Bool :=
  (9 ≤ c.val && c.val ≤ 13) || c.val = 32 || c.val = 0x85 || c.val = 0xA0 ||
  c.val = 0x1680 || (0x2000 ≤ c.val && c.val ≤ 0x200A) ||
  c.val = 0x2028 || c.val = 0x2029 || c.val = 0x202F || c.val = 0x205F ||
  c.val = 0x3000

/-- Go `strings.TrimSpace`: drop leading and trailing whitespace. -/
def goTrim (l : Line) : Line :=
  ((l.dropWhile isGoSpace).reverse.dropWhile isGoSpace).reverse

/-- `const startQuote = '“'` -/
def startQuote : Char := '“'

/-- `const endQuote = '”'` -/
def endQuote : Char := '”'

def isQuoteGlyph (c : Char) : Bool := c = startQuote || c = endQuote

/-- The sentence-terminal glyphs of the `switch` in `Format`:
`'。', '”', '？', '！', '）', '》'`. -/
def isTerminalPunct (c : Char) : Bool :=
  c = '。' || c = '”' || c = '？' || c = '！' || c = '）' || c = '》'

/-- The table fence line `"---"`. -/
def kTableFence : Line := ['-', '-', '-']

/-- The per-character state carried across lines by `Format`'s scan loop. -/
structure ScanSt where
  inQuote : Bool
  isSpace : Bool
  couldEnd : Bool
deriving DecidableEq, Repr

/-- One iteration of `Format`'s `for _, runeValue := range line` loop:
returns the updated state and the emitted character, if any. -/
def charStep (st : ScanSt) (c : Char) : ScanSt × Option Char :=
  if isGoSpace c then
    if st.isSpace then ({ st with couldEnd := false }, none)
    else ({ st with isSpace := true, couldEnd := false }, some ' ')
  else
    let r : Char :=
      if isQuoteGlyph c then (if st.inQuote then endQuote else startQuote) else c
    let inQ : Bool := if isQuoteGlyph c then !st.inQuote else st.inQuote
    ({ st with inQuote := inQ, couldEnd := isTerminalPunct r }, some r)

/-- Fold `charStep` over a whole line, collecting the emitted characters
(the bytes Go writes into its `bytes.Buffer`). -/
def scanLine (st : ScanSt) : Line → ScanSt × List Char
  | [] => (st, [])
  | c :: cs =>
    ((scanLine (charStep st c).1 cs).1,
     (charStep st c).2.toList ++ (scanLine (charStep st c).1 cs).2)

inductive FmtErr where
  /-- `log.Fatalf("Error @%d: %s\n", lineNumber, line)` -/
  | line (n : Nat) (l : Line)
  /-- `log.Fatalln("Error at end of file.")` -/
  | eof
deriving DecidableEq, Repr

/-- The whole state of one `Format` invocation. -/
structure FmtState where
  buffer : List Char := []
  inQuote : Bool := false
  inTable : Bool := false
  isSpace : Bool := false
  couldEnd : Bool := false
  lineNumber : Nat := 0
  title : Line := []
  author : Line := []
  out : List Line := []
  err : Option FmtErr := none
deriving DecidableEq, Repr

/-- Processing of one scanned input line by `Format`'s main loop.
`log.Fatalf` terminates the Go process, modelled by setting `err`
(the driver stops processing once `err` is set). -/
def formatStep (st : FmtState) (raw : Line) : FmtState :=
  let line := goTrim raw
  let n := st.lineNumber + 1
  let st := { st with lineNumber := n }
  if line = [] then st
  else if st.title = [] then { st with out := st.out ++ [line], title := line }
  else if st.author = [] then { st with out := st.out ++ [line], author := line }
  else if line = kTableFence then
    let st := { st with inTable := !st.inTable }
    if st.buffer ≠ [] ∨ st.inQuote then
      { st with out := st.out ++ (if st.buffer = [] then [] else [st.buffer]),
                err := some (.line n line) }
    else { st with out := st.out ++ [line] }
  else if st.inTable ∨ line.head? = some '+' then
    if st.buffer ≠ [] ∨ st.inQuote then
      { st with out := st.out ++ (if st.buffer = [] then [] else [st.buffer]),
                err := some (.line n line) }
    else { st with out := st.out ++ [line] }
  else
    let sc := (scanLine ⟨st.inQuote, st.isSpace, st.couldEnd⟩ line).1
    let emitted := (scanLine ⟨st.inQuote, st.isSpace, st.couldEnd⟩ line).2
    let st := { st with buffer := st.buffer ++ emitted, inQuote := sc.inQuote,
                        isSpace := sc.isSpace, couldEnd := sc.couldEnd }
    if st.couldEnd ∧ ¬st.inQuote then
      { st with out := st.out ++ [st.buffer], buffer := [] }
    else st

/-- `Format`'s scanning loop over the input lines, halting once a fatal
error has fired. -/
def formatGo (st : FmtState) : List Line → FmtState
  | [] => st
  | l :: ls => if st.err.isSome then st else formatGo (formatStep st l) ls

/-- The end-of-input check of `Format`: a non-empty buffer or an open
quote is fatal, after flushing the partial buffer. -/
def formatFinish (st : FmtState) : FmtState :=
  if st.err.isSome then st
  else if st.buffer ≠ [] ∨ st.inQuote then
    { st with out := st.out ++ (if st.buffer = [] then [] else [st.buffer]),
              err := some .eof }
  else st

/-- `Format` on an already-opened input: the list of lines written to the
output file together with the fatal-error status. -/
def format (ls : List Line) : FmtState :=
  formatFinish (formatGo {} ls)

/-! ## The Structural Compiler (`ConvertToTex` and helpers) -/

/-- Go `strings.Index` restricted to a single rune needle, in rune units
(the source only slices at rune boundaries, where byte and rune indices
are in monotone bijection). -/
def strIndex (c : Char) : Line → Option Nat
  | [] => none
  | a :: as => if a = c then some 0 else (strIndex c as).map (· + 1)

/-- Go `strings.Join(parts, sep)`. -/
def joinSep (sep : Line) : List Line → Line
  | [] => []
  | [x] => x
  | x :: xs => x ++ sep ++ joinSep sep xs

/-- The flag defaults of the tex converter: `--font-name`,
`--fallback-font-name`, `--title-font-name`, `--font-size`. -/
def fontName : Line := "HanaMinA".data
def fallbackFontName : Line := "HanaMinB".data
def titleFontName : Line := "KaiTi".data
def fontSize : Nat := 16

/-- `GetLongtableDef()`. -/
def GetLongtableDef : Line :=
  ("\\usepackage\x7blongtable,tabulary\x7d\n\\makeatletter\n\\def\\ltabulary\x7b%\n\\def\\endfirsthead\x7b\\\\\x7d%\n\\def\\endhead\x7b\\\\\x7d%\n\\def\\endfoot\x7b\\\\\x7d%\n\\def\\endlastfoot\x7b\\\\\x7d%\n\\def\\tabulary\x7b%\n  \\def\\TY@final\x7b%\n\\def\\endfirsthead\x7b\\LT@end@hd@ft\\LT@firsthead\x7d%\n\\def\\endhead\x7b\\LT@end@hd@ft\\LT@head\x7d%\n\\def\\endfoot\x7b\\LT@end@hd@ft\\LT@foot\x7d%\n\\def\\endlastfoot\x7b\\LT@end@hd@ft\\LT@lastfoot\x7d%\n\\longtable\x7d%\n  \\let\\endTY@final\\endlongtable\n  \\TY@tabular\x7d%\n\\dimen@\\columnwidth\n\\advance\\dimen@-\\LTleft\n\\advance\\dimen@-\\LTright\n\\tabulary\\dimen@\x7d\n\\def\\endltabulary\x7b\\endtabulary\x7d\n\\makeatother").data

/-- `GetTitlePage(title, author)`. -/
def GetTitlePage (title author : Line) : Line :=
  ("\\begin\x7btitlepage\x7d\n\\begin\x7bcenter\x7d\n\\vspace*\x7b\\fill\x7d\n\\emph\x7b\\textbf\x7b\\Huge\x7b\\kaiti ").data
  ++ title
  ++ ("\x7d\x7d\x7d\\\\[0.5cm]\n\x7b\\normalsize ").data
  ++ author
  ++ ("\x7d\\\\[1.5cm]\n\x7b\\small\\url\x7bhttps://code.google.com/p/ancient-chinese\x7d\x7d\\\\\n\x7b\\small\\today\x7d\n\\vspace*\x7b\\fill\x7d\n\\end\x7bcenter\x7d\n\\end\x7btitlepage\x7d").data

/-- `kSectionNames`. -/
def kSectionNames : List Line :=
  ["part".data, "chapter".data, "section".data, "subsection".data,
   "subsubsection".data, "subsubsubsection".data, "paragraph".data,
   "subparagraph".data]

/-- The number of leading `'+'` marker symbols of a line
(`numOfPlus` in `ParseTitleLine`). -/
def leadingPlus (l : Line) : Nat := (l.takeWhile (· = '+')).length

/-- `ParseTitleLine(title)`: `none` models `log.Fatalf("Unknown title: …")`. -/
def ParseTitleLine (l : Line) : Option (Nat × Line × Line) :=
  if leadingPlus l < 1 ∨ kSectionNames.length < leadingPlus l then none
  else
    some (leadingPlus l - 1,
          (if leadingPlus l = 2 then "\\cleardoublepage".data else [])
            ++ "\\phantomsection".data,
          l.drop (leadingPlus l))

def kCommentStart : Char := '（'
def kCommentEnd : Char := '）'

/-- The opening text the `fmt.Sprintf` call in `ReplaceCommentWithScript`
writes before a comment span, a brace followed by the scriptsize command. -/
def scriptPre : Line := "\x7b\\scriptsize ".data

/-- The `for` loop of `ReplaceCommentWithScript`, with a structural fuel
parameter so that the kernel can evaluate it; each iteration strictly
shrinks the text, so `text.length + 1` iterations always suffice
(`rcwsFuel_congr` below). -/
def rcwsFuel : Nat → Line → Option Line
  | 0, _ => none
  | fuel + 1, text =>
    match strIndex kCommentStart text with
    | none => some text
    | some s =>
      match strIndex kCommentEnd text with
      | none => none
      | some e =>
        if s + 1 ≥ e then none
        else
          match rcwsFuel fuel (text.drop (e + 1)) with
          | none => none
          | some r =>
            some (text.take s ++ scriptPre ++ ((text.take e).drop (s + 1))
                  ++ '\x7d' :: r)

/-- `ReplaceCommentWithScript(text)`: `none` models
`log.Fatalf("Invalid comment: …")`. -/
def ReplaceCommentWithScript (text : Line) : Option Line :=
  rcwsFuel (text.length + 1) text

inductive TexErr where
  /-- `log.Fatalf("Unknown title: %s.", title)` -/
  | unknownTitle (l : Line)
  /-- `log.Fatalf("Invalid comment: %s\n", text)` -/
  | invalidComment (l : Line)
  /-- `log.Fatalf` reporting that a row should have `numColumns` columns -/
  | columnMismatch (row : Line) (n : Nat)
deriving DecidableEq, Repr

/-- The state of one `ConvertToTex` invocation.  The two arrays of size
`len(kSectionNames)` are modelled as lists of length 8.  Go consumes a
table with a nested scanner loop; that loop is modelled by the
`inTable`/`tableRows` fields so that the whole pass is one structural
recursion over the input lines (the consumed lines, emitted output and
fatal errors are identical). -/
structure TexState where
  title : Line := []
  author : Line := []
  sectionTypeToCount : List Nat := List.replicate 8 0
  sectionTypeToTitle : List Line := List.replicate 8 []
  inTable : Bool := false
  tableRows : List Line := []
  out : List Line := []
  err : Option TexErr := none
deriving DecidableEq, Repr

/-- The fixed preamble written before the scanning loop, one list entry
per `fmt.Fprint*` call. -/
def headerLines : List Line :=
  [("\\documentclass[fontsize=".data ++ (Nat.repr fontSize).data ++ "pt]\x7bscrbook\x7d".data),
   "\\KOMAoptions\x7btwoside=false\x7d".data,
   "\\usepackage\x7bhyperref\x7d".data,
   "\\usepackage\x7bindentfirst\x7d".data,
   GetLongtableDef,
   "\\usepackage\x7bxeCJK\x7d".data,
   "\\xeCJKsetup\x7bAutoFallBack\x7d".data,
   "\\CJKspace".data,
   ("\\setCJKmainfont[FallBack=".data ++ fallbackFontName ++ "]\x7b".data ++ fontName ++ "\x7d".data),
   ("\\newCJKfontfamily[kai]\\kaiti\x7b".data ++ titleFontName ++ "\x7d".data),
   "\\XeTeXlinebreaklocale \"zh\"".data,
   "\\XeTeXlinebreakskip 0pt plus 1pt".data,
   "\\usepackage\x7bfancyhdr\x7d".data,
   "\\pagestyle\x7bfancy\x7d".data,
   "\\setcounter\x7bsecnumdepth\x7d\x7b-1\x7d".data,
   "\\setcounter\x7btocdepth\x7d\x7b2\x7d".data,
   "\\linespread\x7b1.2\x7d".data,
   "\\setlength\x7b\\parindent\x7d\x7b3em\x7d".data,
   "\\sloppy".data,
   "\\begin\x7bdocument\x7d".data]

/-- The five lines written before a table's rows. -/
def tablePre : List Line :=
  ["\\par".data,
   "\\begin\x7bscriptsize\x7d".data,
   "\\xeCJKDeclareCharClass\x7bCJK\x7d\x7b`：,`“\x7d".data,
   "\\xeCJKDeclareCharClass\x7bCJK\x7d\x7b`，,`、,`。,`”\x7d".data,
   "\\xeCJKDeclareCharClass\x7bCJK\x7d\x7b`0,`1,`2,`3,`4,`5,`6,`7,`8,`9\x7d".data]

/-- The seven lines written after a table's rows. -/
def tablePost : List Line :=
  ["\\end\x7bltabulary\x7d".data,
   "\\xeCJKsetup\x7bCheckSingle=true\x7d".data,
   "\\xeCJKDeclareCharClass\x7bDefault\x7d\x7b`0,`1,`2,`3,`4,`5,`6,`7,`8,`9\x7d".data,
   "\\xeCJKDeclareCharClass\x7bFullRight\x7d\x7b`，,`、,`。,`”\x7d".data,
   "\\xeCJKDeclareCharClass\x7bFullLeft\x7d\x7b`：,`“\x7d".data,
   "\\end\x7bscriptsize\x7d".data,
   "\\par".data]

/-- `fmt.Fprintf("\\begin{ltabulary}{%s|}\n", strings.Repeat("|L", numColumns))`. -/
def beginLtab (n : Nat) : Line :=
  "\\begin\x7bltabulary\x7d\x7b".data ++ (List.replicate n "|L".data).flatten ++ "|\x7d".data

def hlineL : Line := "\\hline".data

/-- One table row: `fmt.Fprintf("%s \\\\ \\hline\n", strings.Join(columns, " & "))`. -/
def renderRow (columns : List Line) : Line :=
  joinSep " & ".data columns ++ " \\\\ \\hline".data

/-- The row loop after `numColumns` has been fixed by the first row:
emitted row lines plus the fatal column-mismatch error, if any. -/
def emitRowsGo (numColumns : Nat) : List Line → List Line × Option TexErr
  | [] => ([], none)
  | row :: rows =>
    if (List.splitOn '|' row).length ≠ numColumns then
      ([], some (.columnMismatch row numColumns))
    else
      (renderRow (List.splitOn '|' row) :: (emitRowsGo numColumns rows).1,
       (emitRowsGo numColumns rows).2)

/-- The full `for _, row := range tableRows` loop (`numColumns` starts
at -1, so the first row fixes the column count and opens the table). -/
def emitRows : List Line → List Line × Option TexErr
  | [] => ([], none)
  | row :: rows =>
    (beginLtab (List.splitOn '|' row).length :: hlineL
       :: renderRow (List.splitOn '|' row)
       :: (emitRowsGo (List.splitOn '|' row).length rows).1,
     (emitRowsGo (List.splitOn '|' row).length rows).2)

/-- `sectionTypeToCount[sectionType]++` with all deeper counters reset. -/
def bumpCounts (k : Nat) (counts : List Nat) : List Nat :=
  counts.mapIdx fun i v => if i = k then v + 1 else if k < i then 0 else v

/-- `sectionTypeToTitle[sectionType] = title` with all deeper titles reset. -/
def resetTitles (k : Nat) (t : Line) (titles : List Line) : List Line :=
  titles.mapIdx fun i v => if i = k then t else if k < i then [] else v

/-- The emitted section-open construct,
`fmt.Fprintf("%s\n\\%s{%s}\n", start, sectionTypeName, …)`. -/
def sectionConstruct (k : Nat) (start t' : Line) : Line :=
  start ++ '\n' :: '\\' :: kSectionNames.getD k [] ++ '\x7b' :: (t' ++ ['\x7d'])

/-- The section-marker branch of `ConvertToTex` (`line[0] == '+'`).
`ReplaceCommentWithScript` is evaluated inside the `fmt.Fprintf`
arguments, before anything is written; on its fatal error the process
dies with the write never happening, so the state mutations Go performed
just before are unobservable. -/
def sectionStep (st : TexState) (line : Line) : TexState :=
  match ParseTitleLine line with
  | none => { st with err := some (.unknownTitle line) }
  | some (k, start, t) =>
    if st.sectionTypeToTitle.getD k [] = t then st
    else
      match ReplaceCommentWithScript t with
      | none => { st with err := some (.invalidComment t) }
      | some t' =>
        { st with
          sectionTypeToTitle := resetTitles k t st.sectionTypeToTitle,
          sectionTypeToCount := bumpCounts k st.sectionTypeToCount,
          out := st.out ++
            [start ++ '\n' :: '\\' :: kSectionNames.getD k [] ++ '\x7b' :: t' ++ ['\x7d']] }

/-- Emission of an accumulated table once its closing fence (or the end
of input) is reached: `if len(tableRows) == 0 { continue }`, otherwise
the fixed block around the row loop. -/
def emitTable (st : TexState) : TexState :=
  if st.tableRows = [] then { st with inTable := false, tableRows := [] }
  else
    let body := (emitRows st.tableRows).1
    let e := (emitRows st.tableRows).2
    { st with
      inTable := false, tableRows := [],
      out := st.out ++ tablePre ++ body ++ (if e.isSome then [] else tablePost),
      err := e }

/-- Processing of one scanned input line by `ConvertToTex`'s loop. -/
def convStep (st : TexState) (raw : Line) : TexState :=
  let line := goTrim raw
  if st.inTable then
    if line = kTableFence then emitTable st
    else { st with tableRows := st.tableRows ++ [line] }
  else if line = [] then st
  else if st.title = [] then { st with title := line }
  else if st.author = [] then
    { st with
      author := line,
      out := st.out ++ [GetTitlePage st.title line,
                        "\\tableofcontents\x7b\x7d".data,
                        "\\newpage".data] }
  else if line = kTableFence then { st with inTable := true, tableRows := [] }
  else if line.head? = some '+' then sectionStep st line
  else
    match ReplaceCommentWithScript line with
    | none => { st with err := some (.invalidComment line) }
    | some l' => { st with out := st.out ++ ["\\par\n".data ++ l'] }

/-- The main scanning loop of `ConvertToTex`, halting once a fatal error
has fired. -/
def convGo (st : TexState) : List Line → TexState
  | [] => st
  | raw :: ls => if st.err.isSome then st else convGo (convStep st raw) ls

/-- End-of-input handling: when the input ends while a table is still
open, the nested scanner loop falls out on end of input and the
accumulated rows are emitted as a normal table. -/
def convEof (st : TexState) : TexState :=
  if st.err.isSome then st else if st.inTable then emitTable st else st

/-- `fmt.Fprintln(outputFile, "\end{document}")` after the loop, never
reached when `log.Fatal*` already killed the process. -/
def convEnd (st : TexState) : TexState :=
  if st.err.isSome then st
  else { st with out := st.out ++ ["\\end\x7bdocument\x7d".data] }

/-- `ConvertToTex` on an already-opened input. -/
def convertToTex (ls : List Line) : TexState :=
  convEnd (convEof (convGo { out := headerLines } ls))

/-! ## The batch driver (`main` of the formatter) -/

/-- One input named on the command line: its name and, when it can be
opened, its lines (`none` models an `os.Open` failure). -/
structure BatchFile where
  name : Line
  content : Option (List Line)

/-- What happened to one input of the batch. -/
inductive BatchOutcome where
  /-- `"Don't know how convert %s. Ignore it."` -/
  | unknownSuffix
  /-- `"Failed to open %s for read: %s."` -/
  | openFailed
  /-- `Format` ran (its `err` tells whether it died fatally). -/
  | formatted (st : FmtState)
deriving DecidableEq

/-- Go `strings.HasSuffix(input, ".txt")`. -/
def endsWithTxt (n : Line) : Bool :=
  4 ≤ n.length && n.drop (n.length - 4) = ".txt".data

/-- The `for _, input := range flag.Args()` loop of the formatter's
`main`.  `log.Fatalf` inside `Format` exits the whole process, so a
fatal in-stream error leaves the remaining files unattempted. -/
def formatBatch : List BatchFile → List BatchOutcome
  | [] => []
  | f :: fs =>
    if ¬ endsWithTxt f.name then .unknownSuffix :: formatBatch fs
    else
      match f.content with
      | none => .openFailed :: formatBatch fs
      | some ls =>
        let st := format ls
        if st.err.isSome then [.formatted st]
        else .formatted st :: formatBatch fs

/-! ## Measurement helpers used by the claims -/

/-- The number of quote glyphs in a character sequence. -/
def countQ (cs : List Char) : Nat := (cs.filter isQuoteGlyph).length

/-- `parity n` is `true` exactly when `n` is odd. -/
def parity (n : Nat) : Bool := decide (n % 2 = 1)

/-- The strictly alternating glyph sequence the Normalizer is supposed
to produce, starting from quote state `b`. -/
def altQuotes : Bool → Nat → List Char
  | _, 0 => []
  | false, n + 1 => startQuote :: altQuotes true n
  | true, n + 1 => endQuote :: altQuotes false n

/-- The characters of exactly those input lines that `Format` feeds to
its character transform (not blank, not the title or author line, not a
table fence, not inside a table, no `'+'` marker), replaying the
classification of `Format`'s main loop. -/
def bodyCharsFrom (title author : Line) (inTable : Bool) : List Line → List Char
  | [] => []
  | raw :: ls =>
    let line := goTrim raw
    if line = [] then bodyCharsFrom title author inTable ls
    else if title = [] then bodyCharsFrom line author inTable ls
    else if author = [] then bodyCharsFrom title line inTable ls
    else if line = kTableFence then bodyCharsFrom title author (!inTable) ls
    else if inTable ∨ line.head? = some '+' then bodyCharsFrom title author inTable ls
    else line ++ bodyCharsFrom title author inTable ls

/-- Quote glyphs of a character sequence are already canonical: every
`“` occurs outside a quotation, every `”` inside, and the quotation is
closed at the end when starting from state `b`. -/
def quotesOk (b : Bool) : List Char → Bool
  | [] => !b
  | c :: cs =>
    if c = startQuote then !b && quotesOk true cs
    else if c = endQuote then b && quotesOk false cs
    else quotesOk b cs

/-- A canonical paragraph line for the idempotence theorem: non-empty,
free of whitespace, quote glyphs already canonical and balanced, and
ending in a sentence-terminal glyph. -/
def canonPara (l : Line) : Bool :=
  !l.isEmpty && l.all (fun c => !isGoSpace c) && quotesOk false l &&
    (l.getLast?.elim false isTerminalPunct)

/-- Canonical body lines (after title and author), replaying the table
mode of the Normalizer: fences and table rows and marker lines are
arbitrary non-blank trimmed lines, every other line a canonical
paragraph. -/
def canonBody (inTable : Bool) : List Line → Bool
  | [] => true
  | l :: ls =>
    (!l.isEmpty && goTrim l = l) &&
    (if l = kTableFence then canonBody (!inTable) ls
     else if inTable || l.head? = some '+' then canonBody inTable ls
     else canonPara l && canonBody inTable ls)

/-- A canonical input sequence for the idempotence theorem: trimmed
non-blank title and author lines followed by canonical body lines. -/
def canonical : List Line → Bool
  | [] => true
  | t :: rest =>
    (!t.isEmpty && goTrim t = t) &&
    (match rest with
     | [] => true
     | a :: body => (!a.isEmpty && goTrim a = a) && canonBody false body)

/-- Modelled from the claim's words (C8): its parenthetical notion of
"already canonical" input — blank-line-free (each line non-blank and
trimmed), quote-balanced, one paragraph/table-row/marker per line (every
non-marker, non-table line is one complete sentence ending in a terminal
glyph).  Unlike `canonical` it does not restrict interior whitespace. -/
def claimCanonBody (inTable : Bool) : List Line → Bool
  | [] => true
  | l :: ls =>
    if l = kTableFence then claimCanonBody (!inTable) ls
    else if inTable || l.head? = some '+' then claimCanonBody inTable ls
    else (quotesOk false l && (l.getLast?.elim false isTerminalPunct)) &&
      claimCanonBody inTable ls

/-- Modelled from the claim's words (C8), see `claimCanonBody`. -/
def claimCanonicalC8 (ls : List Line) : Bool :=
  ls.all (fun l => !l.isEmpty && goTrim l = l) &&
  (match ls with
   | _ :: _ :: body => claimCanonBody false body
   | _ => true)

/-! ## Claim C1: round trip on the canonical well-formed document -/

/-- The canonical document of claim C1: title `T`, author `A`, one
level-1 section `Ch1`, one paragraph `Hello`, one 2×2 table. -/
def c1Input : List Line :=
  ["T".data, "A".data, "++Ch1".data, "Hello".data,
   kTableFence, "a|b".data, "c|d".data, kTableFence]

/-- A body-mode compiler state with non-trivial deeper counters and
titles, for the C5 witness. -/
def c5WitnessState : TexState :=
  { title := "T".data, author := "A".data,
    sectionTypeToCount := [1, 2, 0, 3, 0, 0, 0, 1],
    sectionTypeToTitle := ["P".data, "C".data, [], "U".data, [], [], [], "Q".data] }

set_option maxRecDepth 100000 in
/-- C1: compiling the canonical document with title "T", author "A", one
level-1 section "Ch1", one paragraph "Hello" and one 2×2 table emits, in
this order: a title page containing "T" and "A", a table of contents, a
`\chapter` heading for "Ch1", a `\par` paragraph for "Hello", a table
environment with exactly two rows of two fields, and `\end{document}`;
and the compilation succeeds. -/
theorem c1_round_trip :
    List.Sublist
      [GetTitlePage "T".data "A".data,
       "\\tableofcontents\x7b\x7d".data,
       "\\cleardoublepage\\phantomsection\n\\chapter\x7bCh1\x7d".data,
       "\\par\nHello".data,
       "\\begin\x7bltabulary\x7d\x7b|L|L|\x7d".data,
       "a & b \\\\ \\hline".data,
       "c & d \\\\ \\hline".data,
       "\\end\x7bdocument\x7d".data]
      (convertToTex c1Input).out ∧
    (convertToTex c1Input).err = none := by
  rw [← List.isSublist_iff_sublist]
  decide

/-! ## Claim C2: whitespace collapse -/

/-- C2 (failing input): a paragraph line with two separate whitespace
runs.  The scan's `isSpace` flag is set when the first run is collapsed
and never cleared again (no branch of the rune loop resets it after a
non-space rune), so the second run is deleted instead of collapsed:
`"a b c。"` becomes `"a bc。"`, not `"a b c。"`.  This contradicts the
formatter's own header comment "Merge consecutive spaces into one". -/
theorem c2_second_whitespace_run_deleted :
    (format ["T".data, "A".data, "a b c。".data]).out
      = ["T".data, "A".data, "a bc。".data] ∧
    (format ["T".data, "A".data, "a b c。".data]).err = none := by decide

/-! ## Claim C3: quote pairing -/

/-- C3 (counterexample): an input stream with an odd total number of
quote glyphs that the Normalizer accepts without any error.  The single
`“` sits on the title line, which is passed through verbatim and never
reaches the character transform, so the quote state never opens. -/
theorem c3_counterexample_odd_quotes_accepted :
    Odd (countQ (["“T".data, "A".data, "x。".data]).flatten) ∧
    (format ["“T".data, "A".data, "x。".data]).err = none ∧
    (format ["“T".data, "A".data, "x。".data]).out
      = ["“T".data, "A".data, "x。".data] := by decide

/-! ## Claim C3 (amended): quote alternation and odd-count rejection -/

lemma quote_not_space {c : Char} (h : isGoSpace c = true) : isQuoteGlyph c = false := by
  by_cases h1 : c = startQuote
  · subst h1; exact absurd h (by decide)
  · by_cases h2 : c = endQuote
    · subst h2; exact absurd h (by decide)
    · simp [isQuoteGlyph, h1, h2]

lemma countQ_cons_quote {c : Char} (cs : List Char) (h : isQuoteGlyph c = true) :
    countQ (c :: cs) = countQ cs + 1 := by
  simp [countQ, List.filter, h]

lemma countQ_cons_other {c : Char} (cs : List Char) (h : isQuoteGlyph c = false) :
    countQ (c :: cs) = countQ cs := by
  simp [countQ, List.filter, h]

lemma countQ_append (cs ds : List Char) :
    countQ (cs ++ ds) = countQ cs + countQ ds := by
  simp [countQ, List.filter_append]

lemma parity_succ (n : Nat) : parity (n + 1) = !parity n := by
  unfold parity
  rcases Nat.mod_two_eq_zero_or_one n with h | h <;> simp [Nat.add_mod, h]

lemma parity_add (m n : Nat) : parity (m + n) = xor (parity m) (parity n) := by
  induction n with
  | zero => simp [parity]
  | succ n ih =>
    rw [← Nat.add_assoc, parity_succ, parity_succ, ih]
    cases parity m <;> cases parity n <;> rfl

lemma charStep_space_skip (c : Char) (q ce : Bool) (hsp : isGoSpace c = true) :
    charStep ⟨q, true, ce⟩ c = (⟨q, true, false⟩, none) := by
  simp [charStep, hsp]

lemma charStep_space_emit (c : Char) (q ce : Bool) (hsp : isGoSpace c = true) :
    charStep ⟨q, false, ce⟩ c = (⟨q, true, false⟩, some ' ') := by
  simp [charStep, hsp]

lemma charStep_quote (c : Char) (q sp ce : Bool)
    (hsp : isGoSpace c = false) (hq : isQuoteGlyph c = true) :
    charStep ⟨q, sp, ce⟩ c
      = (⟨!q, sp, isTerminalPunct (if q then endQuote else startQuote)⟩,
         some (if q then endQuote else startQuote)) := by
  simp [charStep, hsp, hq]

lemma charStep_plain (c : Char) (q sp ce : Bool)
    (hsp : isGoSpace c = false) (hq : isQuoteGlyph c = false) :
    charStep ⟨q, sp, ce⟩ c = (⟨q, sp, isTerminalPunct c⟩, some c) := by
  simp [charStep, hsp, hq]

/-- The quote glyphs a character scan emits, starting from quote state
`q`, are exactly the strictly alternating canonical sequence. -/
lemma scanLine_quotes : ∀ (cs : List Char) (q sp ce : Bool),
    ((scanLine ⟨q, sp, ce⟩ cs).2).filter isQuoteGlyph = altQuotes q (countQ cs) := by
  intro cs
  induction cs with
  | nil => intro q sp ce; simp [scanLine, countQ, altQuotes]
  | cons c cs ih =>
    intro q sp ce
    rw [scanLine]
    by_cases hsp : isGoSpace c
    · have hqg := quote_not_space hsp
      rw [countQ_cons_other cs hqg]
      cases hs : sp
      · rw [charStep_space_emit c q ce hsp]
        simp only [List.filter_append, Option.toList_some]
        rw [ih]
        simp [isQuoteGlyph, startQuote, endQuote]
      · rw [charStep_space_skip c q ce hsp]
        simp only [List.filter_append, Option.toList_none]
        rw [ih]
        simp
    · by_cases hq : isQuoteGlyph c
      · rw [countQ_cons_quote cs hq]
        rw [charStep_quote c q sp ce (by simpa using hsp) hq]
        simp only [List.filter_append, Option.toList_some]
        rw [ih]
        cases q
        · simp [altQuotes, isQuoteGlyph]
        · simp [altQuotes, isQuoteGlyph]
      · rw [countQ_cons_other cs (by simpa using hq)]
        rw [charStep_plain c q sp ce (by simpa using hsp) (by simpa using hq)]
        simp only [List.filter_append, Option.toList_some]
        rw [ih]
        simp [List.filter, hq]

/-- The quote state after a character scan is the initial state xor-ed
with the parity of the number of quote glyphs consumed. -/
lemma scanLine_inQuote : ∀ (cs : List Char) (q sp ce : Bool),
    (scanLine ⟨q, sp, ce⟩ cs).1.inQuote = xor q (parity (countQ cs)) := by
  intro cs
  induction cs with
  | nil => intro q sp ce; simp [scanLine, countQ, parity]
  | cons c cs ih =>
    intro q sp ce
    rw [scanLine]
    by_cases hsp : isGoSpace c
    · have hqg := quote_not_space hsp
      rw [countQ_cons_other cs hqg]
      cases hs : sp
      · rw [charStep_space_emit c q ce hsp]
        exact ih q true false
      · rw [charStep_space_skip c q ce hsp]
        exact ih q true false
    · by_cases hq : isQuoteGlyph c
      · rw [countQ_cons_quote cs hq, parity_succ]
        rw [charStep_quote c q sp ce (by simpa using hsp) hq]
        rw [ih]
        cases q <;> cases parity (countQ cs) <;> rfl
      · rw [countQ_cons_other cs (by simpa using hq)]
        rw [charStep_plain c q sp ce (by simpa using hsp) (by simpa using hq)]
        exact ih q sp (isTerminalPunct c)

/-! Branch lemmas for `formatStep`. -/

lemma formatStep_blank (st : FmtState) (raw : Line) (h : goTrim raw = []) :
    formatStep st raw = { st with lineNumber := st.lineNumber + 1 } := by
  simp [formatStep, h]

lemma formatStep_title (st : FmtState) (raw : Line)
    (h : goTrim raw ≠ []) (ht : st.title = []) :
    formatStep st raw
      = { st with lineNumber := st.lineNumber + 1,
                  out := st.out ++ [goTrim raw], title := goTrim raw } := by
  simp [formatStep, h, ht]

lemma formatStep_author (st : FmtState) (raw : Line)
    (h : goTrim raw ≠ []) (ht : st.title ≠ []) (ha : st.author = []) :
    formatStep st raw
      = { st with lineNumber := st.lineNumber + 1,
                  out := st.out ++ [goTrim raw], author := goTrim raw } := by
  simp [formatStep, h, ht, ha]

lemma formatStep_fence_ok (st : FmtState) (raw : Line)
    (hline : goTrim raw = kTableFence)
    (ht : st.title ≠ []) (ha : st.author ≠ [])
    (hb : st.buffer = []) (hq : st.inQuote = false) :
    formatStep st raw
      = { st with lineNumber := st.lineNumber + 1,
                  inTable := !st.inTable, out := st.out ++ [kTableFence] } := by
  simp [formatStep, hline, kTableFence, ht, ha, hb, hq]

lemma formatStep_fence_fatal (st : FmtState) (raw : Line)
    (hline : goTrim raw = kTableFence)
    (ht : st.title ≠ []) (ha : st.author ≠ [])
    (h : st.buffer ≠ [] ∨ st.inQuote) :
    (formatStep st raw).err.isSome = true := by
  simp only [formatStep, hline]
  simp [kTableFence, ht, ha]
  rcases h with h | h
  · simp [h]
  · simp [h]

lemma formatStep_verbatim_ok (st : FmtState) (raw : Line)
    (hne : goTrim raw ≠ []) (hnf : goTrim raw ≠ kTableFence)
    (ht : st.title ≠ []) (ha : st.author ≠ [])
    (hv : st.inTable = true ∨ (goTrim raw).head? = some '+')
    (hb : st.buffer = []) (hq : st.inQuote = false) :
    formatStep st raw
      = { st with lineNumber := st.lineNumber + 1,
                  out := st.out ++ [goTrim raw] } := by
  simp only [formatStep]
  simp [hne, hnf, ht, ha, hb, hq]
  intro h1 h2
  rcases hv with hv | hv
  · exact absurd hv (by simp [h1])
  · exact absurd hv (by simp [h2])

lemma formatStep_verbatim_fatal (st : FmtState) (raw : Line)
    (hne : goTrim raw ≠ []) (hnf : goTrim raw ≠ kTableFence)
    (ht : st.title ≠ []) (ha : st.author ≠ [])
    (hv : st.inTable = true ∨ (goTrim raw).head? = some '+')
    (h : ¬st.buffer = [] ∨ st.inQuote = true) :
    (formatStep st raw).err.isSome = true := by
  simp [formatStep, hne, hnf, ht, ha]
  rw [if_pos hv, if_pos h]
  rfl

lemma formatStep_para_proj (st : FmtState) (raw : Line)
    (hne : goTrim raw ≠ []) (hnf : goTrim raw ≠ kTableFence)
    (ht : st.title ≠ []) (ha : st.author ≠ [])
    (hit : st.inTable = false) (hhd : (goTrim raw).head? ≠ some '+') :
    (formatStep st raw).err = st.err ∧
    (formatStep st raw).title = st.title ∧
    (formatStep st raw).author = st.author ∧
    (formatStep st raw).inTable = st.inTable ∧
    (formatStep st raw).inQuote
      = (scanLine ⟨st.inQuote, st.isSpace, st.couldEnd⟩ (goTrim raw)).1.inQuote := by
  simp only [formatStep]
  simp only [hne, hnf, ht, ha, hit, hhd, if_neg, if_false]
  simp [hne, hnf, ht, ha, hhd]
  split <;> simp

lemma formatGo_halt (st : FmtState) (ls : List Line) (h : st.err.isSome) :
    formatGo st ls = st := by
  cases ls <;> simp [formatGo, h]

/-- The parity invariant of the Normalizer's scanning loop: as long as
no fatal error fires, the quote state equals the initial quote state
xor-ed with the parity of the quote glyphs of the character-transformed
lines. -/
lemma formatGo_parity : ∀ (ls : List Line) (st : FmtState),
    (formatGo st ls).err = none →
    (formatGo st ls).inQuote
      = xor st.inQuote
          (parity (countQ (bodyCharsFrom st.title st.author st.inTable ls))) := by
  intro ls
  induction ls with
  | nil => intro st _; simp [formatGo, bodyCharsFrom, countQ, parity]
  | cons raw ls ih =>
    intro st herr
    by_cases hst : st.err.isSome
    · rw [formatGo_halt st (raw :: ls) hst] at herr
      rw [herr] at hst
      simp at hst
    · have hgo : formatGo st (raw :: ls) = formatGo (formatStep st raw) ls := by
        rw [formatGo]
        simp [hst]
      rw [hgo] at herr ⊢
      by_cases hblank : goTrim raw = []
      · rw [formatStep_blank st raw hblank] at herr ⊢
        rw [ih _ herr]
        rw [bodyCharsFrom, if_pos hblank]
      · by_cases htitle : st.title = []
        · rw [formatStep_title st raw hblank htitle] at herr ⊢
          rw [ih _ herr]
          rw [bodyCharsFrom, if_neg hblank, if_pos htitle]
        · by_cases hauthor : st.author = []
          · rw [formatStep_author st raw hblank htitle hauthor] at herr ⊢
            rw [ih _ herr]
            rw [bodyCharsFrom, if_neg hblank, if_neg htitle, if_pos hauthor]
          · by_cases hfence : goTrim raw = kTableFence
            · by_cases hfatal : st.buffer ≠ [] ∨ st.inQuote
              · have := formatStep_fence_fatal st raw hfence htitle hauthor hfatal
                rw [formatGo_halt _ ls this] at herr
                rw [herr] at this
                simp at this
              · push_neg at hfatal
                have hb : st.buffer = [] := hfatal.1
                have hq : st.inQuote = false := by
                  have := hfatal.2
                  simp at this
                  exact this
                rw [formatStep_fence_ok st raw hfence htitle hauthor hb hq] at herr ⊢
                rw [ih _ herr]
                rw [bodyCharsFrom, if_neg hblank, if_neg htitle, if_neg hauthor,
                    if_pos hfence]
            · by_cases hverb : st.inTable = true ∨ (goTrim raw).head? = some '+'
              · by_cases hfatal : st.buffer ≠ [] ∨ st.inQuote
                · have := formatStep_verbatim_fatal st raw hblank hfence htitle
                    hauthor hverb hfatal
                  rw [formatGo_halt _ ls this] at herr
                  rw [herr] at this
                  simp at this
                · push_neg at hfatal
                  have hb : st.buffer = [] := hfatal.1
                  have hq : st.inQuote = false := by
                    have := hfatal.2
                    simp at this
                    exact this
                  rw [formatStep_verbatim_ok st raw hblank hfence htitle hauthor
                      hverb hb hq] at herr ⊢
                  rw [ih _ herr]
                  rw [bodyCharsFrom, if_neg hblank, if_neg htitle, if_neg hauthor,
                      if_neg hfence, if_pos (by simpa using hverb)]
              · push_neg at hverb
                have hit : st.inTable = false := by
                  have := hverb.1
                  simp at this
                  exact this
                have hhd : (goTrim raw).head? ≠ some '+' := hverb.2
                have hproj := formatStep_para_proj st raw hblank hfence htitle
                  hauthor hit hhd
                have hrec := ih (formatStep st raw) herr
                rw [hrec, hproj.2.1, hproj.2.2.1, hproj.2.2.2.1,
                    hproj.2.2.2.2]
                rw [scanLine_inQuote]
                rw [bodyCharsFrom, if_neg hblank, if_neg htitle, if_neg hauthor,
                    if_neg hfence, if_neg (by simp [hit, hhd]), hit]
                rw [countQ_append, parity_add]
                cases st.inQuote <;>
                  cases parity (countQ (goTrim raw)) <;>
                  cases parity (countQ (bodyCharsFrom st.title st.author false ls)) <;>
                  rfl

set_option maxRecDepth 2000 in
/-- C3 (amended): quote glyphs on lines fed to the character transform
come out as the strictly alternating canonical sequence starting with
the opening glyph; and an input whose character-transformed lines
contain an odd total number of quote glyphs is rejected with a fatal
error. -/
theorem c3_quote_pairing_amended :
    (∀ cs : List Char,
      ((scanLine ⟨false, false, false⟩ cs).2).filter isQuoteGlyph
        = altQuotes false (countQ cs)) ∧
    (∀ ls : List Line, Odd (countQ (bodyCharsFrom [] [] false ls)) →
      (format ls).err ≠ none) := by
  constructor
  · intro cs
    exact scanLine_quotes cs false false false
  · intro ls hodd herr
    have hparodd : parity (countQ (bodyCharsFrom [] [] false ls)) = true := by
      obtain ⟨m, hm⟩ := hodd
      simp only [parity, decide_eq_true_eq]
      omega
    rw [format] at herr
    by_cases hgo : (formatGo {} ls).err.isSome
    · rw [formatFinish, if_pos hgo] at herr
      rw [herr] at hgo
      simp at hgo
    · have hgonone : (formatGo {} ls).err = none := by
        cases h : (formatGo {} ls).err
        · rfl
        · rw [h] at hgo; simp at hgo
      have hpar := formatGo_parity ls {} hgonone
      simp only [hparodd] at hpar
      have hqt : (formatGo {} ls).inQuote = true := by
        rw [hpar]
        rfl
      rw [formatFinish, if_neg (by simp [hgo])] at herr
      rw [if_pos (Or.inr hqt)] at herr
      simp at herr

/-- Witness for `c3_quote_pairing_amended`: the alternation at a
concrete scan and the fatal rejection of a body with one quote glyph. -/
theorem c3_quote_pairing_amended_witness :
    ((scanLine ⟨false, false, false⟩ "a“b”c“d”e".data).2).filter isQuoteGlyph
      = altQuotes false (countQ "a“b”c“d”e".data) ∧
    (format ["T".data, "A".data, "“x。".data]).err ≠ none :=
  ⟨c3_quote_pairing_amended.1 "a“b”c“d”e".data,
   c3_quote_pairing_amended.2 ["T".data, "A".data, "“x。".data]
     (by rw [show countQ (bodyCharsFrom [] [] false
               ["T".data, "A".data, "“x。".data]) = 1 from by decide]
         exact odd_one)⟩

/-! ## Claim C7: batch processing -/

/-- C7 (counterexample): two openable `.txt` files; the first dies with
a fatal in-stream error (dangling unflushed paragraph at end of input),
and because `log.Fatal*` exits the whole process, the second file is
never attempted — the batch produces one outcome, not two. -/
theorem c7_counterexample_fatal_kills_batch :
    (formatBatch
      [⟨"a.txt".data, some ["T".data, "A".data, "x".data]⟩,
       ⟨"b.txt".data, some ["T".data, "A".data, "y。".data]⟩]).length = 1 ∧
    (format ["T".data, "A".data, "x".data]).err = some .eof := by decide

/-- C7 (amended): a file whose name does not end in `.txt` or that
cannot be opened is logged and skipped, and the remaining files are
still attempted; a file whose conversion hits a fatal in-stream error
terminates the whole batch, leaving the remaining files unattempted. -/
theorem c7_batch_error_handling_amended :
    (∀ (f : BatchFile) (fs : List BatchFile), endsWithTxt f.name = false →
      formatBatch (f :: fs) = .unknownSuffix :: formatBatch fs) ∧
    (∀ (f : BatchFile) (fs : List BatchFile), endsWithTxt f.name = true →
      f.content = none →
      formatBatch (f :: fs) = .openFailed :: formatBatch fs) ∧
    (∀ (f : BatchFile) (ls : List Line) (fs : List BatchFile),
      endsWithTxt f.name = true → f.content = some ls →
      (format ls).err.isSome = true →
      formatBatch (f :: fs) = [.formatted (format ls)]) ∧
    (∀ (f : BatchFile) (ls : List Line) (fs : List BatchFile),
      endsWithTxt f.name = true → f.content = some ls →
      (format ls).err = none →
      formatBatch (f :: fs) = .formatted (format ls) :: formatBatch fs) := by
  refine ⟨?_, ?_, ?_, ?_⟩
  · intro f fs h
    simp [formatBatch, h]
  · intro f fs h hc
    simp [formatBatch, h, hc]
  · intro f ls fs h hc he
    simp [formatBatch, h, hc, he]
  · intro f ls fs h hc he
    simp [formatBatch, h, hc, he]

/-- Witness for `c7_batch_error_handling_amended` at concrete inputs. -/
theorem c7_batch_error_handling_amended_witness :
    (formatBatch [⟨"a.doc".data, some []⟩] = [.unknownSuffix]) ∧
    (formatBatch [⟨"a.txt".data, none⟩] = [.openFailed]) ∧
    (formatBatch
       [⟨"a.txt".data, some ["T".data, "A".data, "x".data]⟩,
        ⟨"b.txt".data, none⟩]
     = [.formatted (format ["T".data, "A".data, "x".data])]) ∧
    (formatBatch
       [⟨"a.txt".data, some ["T".data, "A".data, "y。".data]⟩,
        ⟨"b.txt".data, none⟩]
     = [.formatted (format ["T".data, "A".data, "y。".data]), .openFailed]) := by
  refine ⟨?_, ?_, ?_, ?_⟩
  · exact c7_batch_error_handling_amended.1 ⟨"a.doc".data, some []⟩ [] (by decide)
  · exact c7_batch_error_handling_amended.2.1 ⟨"a.txt".data, none⟩ [] (by decide) rfl
  · exact c7_batch_error_handling_amended.2.2.1
      ⟨"a.txt".data, some ["T".data, "A".data, "x".data]⟩
      ["T".data, "A".data, "x".data] [⟨"b.txt".data, none⟩]
      (by decide) rfl (by decide)
  · rw [c7_batch_error_handling_amended.2.2.2
      ⟨"a.txt".data, some ["T".data, "A".data, "y。".data]⟩
      ["T".data, "A".data, "y。".data] [⟨"b.txt".data, none⟩]
      (by decide) rfl (by decide)]
    decide

/-! ## Claim C8: idempotence on canonical input -/

/-- C8 (counterexample): an input satisfying the claim's notion of
canonical (blank-line-free, quote-balanced, one complete paragraph per
line) on which the Normalizer is not idempotent: the `isSpace` flag is
still set when the second paragraph's space arrives, so that space is
deleted and `"c d。"` comes out as `"cd。"`. -/
theorem c8_counterexample_not_idempotent :
    claimCanonicalC8 ["T".data, "A".data, "a b。".data, "c d。".data] = true ∧
    (format ["T".data, "A".data, "a b。".data, "c d。".data]).err = none ∧
    (format ["T".data, "A".data, "a b。".data, "c d。".data]).out
      = ["T".data, "A".data, "a b。".data, "cd。".data] := by decide

/-! ## Claims C4 and C5: section markers -/

lemma getD_mapIdx_lt {α β : Type} (f : Nat → α → β) (l : List α) (i : Nat) (d : β)
    (h : i < l.length) :
    (List.mapIdx f l).getD i d = f i (l.get ⟨i, h⟩) := by
  have h' : i < (List.mapIdx f l).length := by
    rw [List.length_mapIdx]; exact h
  rw [List.getD_eq_getElem?_getD, List.getElem?_eq_getElem h']
  have := List.get_mapIdx l f i h
  simp only [List.get_eq_getElem] at this
  exact this

lemma getD_mapIdx_ge {α β : Type} (f : Nat → α → β) (l : List α) (i : Nat) (d : β)
    (h : l.length ≤ i) :
    (List.mapIdx f l).getD i d = d := by
  rw [List.getD_eq_getElem?_getD, List.getElem?_eq_none]
  · rfl
  · simpa [List.length_mapIdx] using h

lemma bumpCounts_getD_self (k : Nat) (counts : List Nat) (h : k < counts.length) :
    (bumpCounts k counts).getD k 0 = counts.getD k 0 + 1 := by
  rw [bumpCounts, getD_mapIdx_lt _ _ _ _ h]
  rw [List.getD_eq_getElem?_getD, List.getElem?_eq_getElem h]
  simp [List.get_eq_getElem]

lemma bumpCounts_getD_deeper (k j : Nat) (counts : List Nat) (h : k < j) :
    (bumpCounts k counts).getD j 0 = 0 := by
  by_cases hj : j < counts.length
  · rw [bumpCounts, getD_mapIdx_lt _ _ _ _ hj]
    have : ¬ j = k := by omega
    simp [this, h]
  · exact getD_mapIdx_ge _ _ _ _ (by omega)

lemma resetTitles_getD_self (k : Nat) (t : Line) (titles : List Line)
    (h : k < titles.length) :
    (resetTitles k t titles).getD k [] = t := by
  rw [resetTitles, getD_mapIdx_lt _ _ _ _ h]
  simp

lemma resetTitles_getD_deeper (k j : Nat) (t : Line) (titles : List Line) (h : k < j) :
    (resetTitles k t titles).getD j [] = [] := by
  by_cases hj : j < titles.length
  · rw [resetTitles, getD_mapIdx_lt _ _ _ _ hj]
    have : ¬ j = k := by omega
    simp [this, h]
  · exact getD_mapIdx_ge _ _ _ _ (by omega)

lemma parseTitleLine_facts (l : Line) (k : Nat) (start t : Line)
    (h : ParseTitleLine l = some (k, start, t)) :
    1 ≤ leadingPlus l ∧ leadingPlus l ≤ 8 ∧ k = leadingPlus l - 1 := by
  have h8 : kSectionNames.length = 8 := by decide
  rw [ParseTitleLine] at h
  split at h
  · exact absurd h (by simp)
  · rename_i hc
    rw [h8] at hc
    push_neg at hc
    simp only [Option.some.injEq, Prod.mk.injEq] at h
    exact ⟨by omega, by omega, by omega⟩

lemma parseTitleLine_level_lt (l : Line) (k : Nat) (start t : Line)
    (h : ParseTitleLine l = some (k, start, t)) : k < 8 := by
  have := parseTitleLine_facts l k start t h
  omega

lemma parseTitleLine_head (l : Line) (k : Nat) (start t : Line)
    (h : ParseTitleLine l = some (k, start, t)) : l.head? = some '+' := by
  have hfacts := parseTitleLine_facts l k start t h
  match l with
  | [] => simp [leadingPlus] at hfacts
  | c :: cs =>
    by_cases hcp : c = '+'
    · simp [hcp]
    · simp [leadingPlus, List.takeWhile, hcp] at hfacts

lemma sectionStep_new (st : TexState) (l : Line) (k : Nat) (start t t' : Line)
    (hparse : ParseTitleLine l = some (k, start, t))
    (hdup : st.sectionTypeToTitle.getD k [] ≠ t)
    (hrc : ReplaceCommentWithScript t = some t') :
    sectionStep st l =
      { st with
        sectionTypeToTitle := resetTitles k t st.sectionTypeToTitle,
        sectionTypeToCount := bumpCounts k st.sectionTypeToCount,
        out := st.out ++ [sectionConstruct k start t'] } := by
  rw [sectionStep, hparse]
  dsimp only
  rw [if_neg hdup, hrc]
  simp [sectionConstruct]

lemma sectionStep_dup (st : TexState) (l : Line) (k : Nat) (start t : Line)
    (hparse : ParseTitleLine l = some (k, start, t))
    (hdup : st.sectionTypeToTitle.getD k [] = t) :
    sectionStep st l = st := by
  rw [sectionStep, hparse]
  dsimp only
  rw [if_pos hdup]

lemma convStep_marker (st : TexState) (l : Line)
    (htitle : st.title ≠ []) (hauthor : st.author ≠ [])
    (hintable : st.inTable = false) (htrim : goTrim l = l)
    (hhead : l.head? = some '+') :
    convStep st l = sectionStep st l := by
  have hne : l ≠ [] := by
    intro h; rw [h] at hhead; simp at hhead
  have hfence : l ≠ kTableFence := by
    intro h; rw [h] at hhead; simp [kTableFence] at hhead
  simp [convStep, htrim, hintable, hne, htitle, hauthor, hfence, hhead]

set_option maxRecDepth 2000 in
/-- C4: in body mode, a non-duplicate section-marker line followed by an
identical copy of itself produces exactly one section-open emission and
exactly one counter increment; the second copy is suppressed with no
output and no state change (processing both lines equals processing the
first alone, and re-applying the section step to the same line is the
identity). -/
theorem c4_duplicate_suppression
    (st : TexState) (l : Line) (rest : List Line) (k : Nat) (start t t' : Line)
    (herr : st.err = none) (htitle : st.title ≠ []) (hauthor : st.author ≠ [])
    (hintable : st.inTable = false) (htrim : goTrim l = l)
    (hlent : st.sectionTypeToTitle.length = 8)
    (hlenc : st.sectionTypeToCount.length = 8)
    (hparse : ParseTitleLine l = some (k, start, t))
    (hdup : st.sectionTypeToTitle.getD k [] ≠ t)
    (hrc : ReplaceCommentWithScript t = some t') :
    convGo st (l :: l :: rest) = convGo (sectionStep st l) rest ∧
    sectionStep (sectionStep st l) l = sectionStep st l ∧
    (sectionStep st l).out = st.out ++ [sectionConstruct k start t'] ∧
    (sectionStep st l).sectionTypeToCount.getD k 0
      = st.sectionTypeToCount.getD k 0 + 1 := by
  have hk : k < 8 := parseTitleLine_level_lt l k start t hparse
  have hhead := parseTitleLine_head l k start t hparse
  have hstep := sectionStep_new st l k start t t' hparse hdup hrc
  have hdup2 : (sectionStep st l).sectionTypeToTitle.getD k [] = t := by
    rw [hstep]
    exact resetTitles_getD_self k t st.sectionTypeToTitle (by omega)
  have hsecond : sectionStep (sectionStep st l) l = sectionStep st l :=
    sectionStep_dup (sectionStep st l) l k start t hparse hdup2
  refine ⟨?_, hsecond, ?_, ?_⟩
  · have h1 : convGo st (l :: l :: rest)
        = convGo (convStep st l) (l :: rest) := by
      simp [convGo, herr]
    rw [h1, convStep_marker st l htitle hauthor hintable htrim hhead]
    have herr1 : (sectionStep st l).err = none := by rw [hstep]; exact herr
    have h2 : convGo (sectionStep st l) (l :: rest)
        = convGo (convStep (sectionStep st l) l) rest := by
      simp [convGo, herr1]
    rw [h2, convStep_marker (sectionStep st l) l (by rw [hstep]; exact htitle)
          (by rw [hstep]; exact hauthor) (by rw [hstep]; exact hintable) htrim hhead,
        hsecond]
  · rw [hstep]
  · rw [hstep]
    exact bumpCounts_getD_self k st.sectionTypeToCount (by omega)

/-- Witness for `c4_duplicate_suppression`: the state right after title
and author were captured, and the duplicated level-1 marker `++X`. -/
theorem c4_duplicate_suppression_witness :
    convGo { title := "T".data, author := "A".data }
        ["++X".data, "++X".data]
      = convGo (sectionStep { title := "T".data, author := "A".data } "++X".data) [] ∧
    sectionStep (sectionStep { title := "T".data, author := "A".data } "++X".data)
        "++X".data
      = sectionStep { title := "T".data, author := "A".data } "++X".data ∧
    (sectionStep { title := "T".data, author := "A".data } "++X".data).out
      = [] ++ [sectionConstruct 1 "\\cleardoublepage\\phantomsection".data "X".data] ∧
    (sectionStep { title := "T".data, author := "A".data }
        "++X".data).sectionTypeToCount.getD 1 0
      = ({ title := "T".data, author := "A".data }
          : TexState).sectionTypeToCount.getD 1 0 + 1 :=
  c4_duplicate_suppression { title := "T".data, author := "A".data }
    "++X".data [] 1 "\\cleardoublepage\\phantomsection".data "X".data "X".data
    (by decide) (by decide) (by decide) (by decide) (by decide) (by decide)
    (by decide) (by decide) (by decide) (by decide)

set_option maxRecDepth 2000 in
/-- C5: a marker line with k repetitions of `'+'` (1 ≤ k ≤ 8) parses to
zero-based level k-1 with a `\cleardoublepage` page break exactly when
k = 2 (level 1); a repetition count of 0 or more than 8 is the fatal
"unknown heading" error; and the compiler's section step on a
non-duplicate marker increments level k's counter, resets the counters
and stored titles of every strictly deeper level, and emits the
section-open construct for level k. -/
theorem c5_section_marker_semantics :
    (∀ l : Line, leadingPlus l = 0 ∨ 8 < leadingPlus l → ParseTitleLine l = none) ∧
    (∀ (l : Line) (k : Nat), 1 ≤ k → k ≤ 8 → leadingPlus l = k →
      ParseTitleLine l
        = some (k - 1,
                (if k = 2 then "\\cleardoublepage".data else [])
                  ++ "\\phantomsection".data,
                l.drop k)) ∧
    (∀ (st : TexState) (l : Line) (k : Nat) (start t t' : Line),
      st.sectionTypeToCount.length = 8 →
      ParseTitleLine l = some (k, start, t) →
      st.sectionTypeToTitle.getD k [] ≠ t →
      ReplaceCommentWithScript t = some t' →
      (sectionStep st l).sectionTypeToCount.getD k 0
          = st.sectionTypeToCount.getD k 0 + 1 ∧
      (∀ j, k < j → (sectionStep st l).sectionTypeToCount.getD j 0 = 0 ∧
                    (sectionStep st l).sectionTypeToTitle.getD j [] = []) ∧
      (sectionStep st l).out = st.out ++ [sectionConstruct k start t'] ∧
      (sectionStep st l).err = st.err) := by
  have h8 : kSectionNames.length = 8 := by decide
  refine ⟨?_, ?_, ?_⟩
  · intro l h
    rw [ParseTitleLine, if_pos]
    rw [h8]
    omega
  · intro l k h1 h2 hlp
    rw [ParseTitleLine, if_neg, hlp]
    rw [hlp, h8]
    omega
  · intro st l k start t t' hlenc hparse hdup hrc
    have hk : k < 8 := parseTitleLine_level_lt l k start t hparse
    have hstep := sectionStep_new st l k start t t' hparse hdup hrc
    rw [hstep]
    refine ⟨bumpCounts_getD_self k st.sectionTypeToCount (by omega), ?_, rfl, rfl⟩
    intro j hj
    exact ⟨bumpCounts_getD_deeper k j st.sectionTypeToCount hj,
           resetTitles_getD_deeper k j t st.sectionTypeToTitle hj⟩

/-- Witness for `c5_section_marker_semantics` at concrete inputs: the
fatal cases `"x"` (zero markers) and nine markers, the parse of `++Ch1`,
and the section step on `+++S` (level 2) from a state with non-zero
deeper counters. -/
theorem c5_section_marker_semantics_witness :
    ParseTitleLine "x".data = none ∧
    ParseTitleLine "+++++++++X".data = none ∧
    ParseTitleLine "++Ch1".data
      = some (1, "\\cleardoublepage\\phantomsection".data, "Ch1".data) ∧
    ((sectionStep c5WitnessState "+++S".data).sectionTypeToCount.getD 2 0
        = c5WitnessState.sectionTypeToCount.getD 2 0 + 1 ∧
     (∀ j, 2 < j → (sectionStep c5WitnessState "+++S".data).sectionTypeToCount.getD j 0 = 0 ∧
                   (sectionStep c5WitnessState "+++S".data).sectionTypeToTitle.getD j [] = []) ∧
     (sectionStep c5WitnessState "+++S".data).out
        = c5WitnessState.out ++ [sectionConstruct 2 "\\phantomsection".data "S".data] ∧
     (sectionStep c5WitnessState "+++S".data).err = c5WitnessState.err) := by
  refine ⟨?_, ?_, ?_, ?_⟩
  · exact c5_section_marker_semantics.1 "x".data (by decide)
  · exact c5_section_marker_semantics.1 "+++++++++X".data (by decide)
  · have := c5_section_marker_semantics.2.1 "++Ch1".data 2 (by decide) (by decide)
      (by decide)
    rw [this]
    decide
  · exact c5_section_marker_semantics.2.2 c5WitnessState "+++S".data 2
      "\\phantomsection".data "S".data "S".data (by decide) (by decide)
      (by decide) (by decide)

/-! ## Claim C9: inline comment spans -/

lemma strIndex_lt_length {c : Char} : ∀ {l : Line} {n : Nat},
    strIndex c l = some n → n < l.length := by
  intro l
  induction l with
  | nil => intro n h; simp [strIndex] at h
  | cons a as ih =>
    intro n h
    simp only [strIndex] at h
    by_cases hac : a = c
    · simp only [if_pos hac, Option.some.injEq] at h
      simp [← h]
    · simp only [if_neg hac, Option.map_eq_some'] at h
      obtain ⟨m, hm, rfl⟩ := h
      have := ih hm
      simp only [List.length_cons]
      omega

lemma rcwsFuel_congr : ∀ f₁ f₂ : Nat, ∀ text : Line,
    text.length < f₁ → text.length < f₂ → rcwsFuel f₁ text = rcwsFuel f₂ text := by
  intro f₁
  induction f₁ with
  | zero => intro f₂ text h₁ _; omega
  | succ f₁ ih =>
    intro f₂ text h₁ h₂
    match f₂, h₂ with
    | f₂ + 1, h₂ =>
      simp only [rcwsFuel]
      cases hs : strIndex kCommentStart text with
      | none => rfl
      | some s =>
        cases he : strIndex kCommentEnd text with
        | none => rfl
        | some e =>
          by_cases hse : s + 1 ≥ e
          · simp [hse]
          · have helen := strIndex_lt_length he
            have hrec : (text.drop (e + 1)).length < f₁ := by
              simp only [List.length_drop]; omega
            have hrec' : (text.drop (e + 1)).length < f₂ := by
              simp only [List.length_drop]; omega
            simp only [if_neg hse, ih f₂ (text.drop (e + 1)) hrec hrec']

lemma strIndex_cons_self (c : Char) (l : Line) : strIndex c (c :: l) = some 0 := by
  simp [strIndex]

lemma strIndex_cons_ne {a c : Char} (l : Line) (h : a ≠ c) :
    strIndex c (a :: l) = (strIndex c l).map (· + 1) := by
  simp [strIndex, h]

lemma strIndex_eq_none_iff {c : Char} : ∀ {l : Line}, strIndex c l = none ↔ c ∉ l := by
  intro l
  induction l with
  | nil => simp [strIndex]
  | cons a as ih =>
    by_cases hac : a = c
    · subst hac
      simp [strIndex_cons_self]
    · rw [strIndex_cons_ne as hac]
      simp only [Option.map_eq_none', ih, List.mem_cons]
      constructor
      · intro h hca
        rcases hca with hca | hca
        · exact hac hca.symm
        · exact h hca
      · intro h hc
        exact h (Or.inr hc)

lemma strIndex_append_of_not_mem {c : Char} :
    ∀ {u : Line} (w : Line), c ∉ u →
      strIndex c (u ++ w) = (strIndex c w).map (· + u.length) := by
  intro u
  induction u with
  | nil => intro w _; simp
  | cons a as ih =>
    intro w h
    have hac : a ≠ c := fun hc => h (by simp [hc])
    rw [List.cons_append, strIndex_cons_ne _ hac, ih w (fun hc => h (by simp [hc]))]
    cases strIndex c w <;> simp [List.length_cons]
    omega

lemma strIndex_getElem {c : Char} :
    ∀ {l : Line} {n : Nat}, strIndex c l = some n → l[n]? = some c := by
  intro l
  induction l with
  | nil => intro n h; simp [strIndex] at h
  | cons a as ih =>
    intro n h
    by_cases hac : a = c
    · subst hac
      rw [strIndex_cons_self] at h
      simp only [Option.some.injEq] at h
      rw [← h]
      simp
    · rw [strIndex_cons_ne as hac] at h
      simp only [Option.map_eq_some'] at h
      obtain ⟨m, hm, rfl⟩ := h
      simpa using ih hm

lemma rcwsFuel_unmatched : ∀ (fuel : Nat) (u v : Line),
    (u ++ kCommentStart :: v).length < fuel → kCommentEnd ∉ v →
    rcwsFuel fuel (u ++ kCommentStart :: v) = none := by
  intro fuel
  induction fuel with
  | zero => intro u v h _; omega
  | succ fuel ih =>
    intro u v hlen hv
    have hmem : kCommentStart ∈ u ++ kCommentStart :: v := by simp
    rw [rcwsFuel]
    cases hs : strIndex kCommentStart (u ++ kCommentStart :: v) with
    | none => exact absurd (strIndex_eq_none_iff.mp hs) (by simp)
    | some s =>
      cases he : strIndex kCommentEnd (u ++ kCommentStart :: v) with
      | none => rfl
      | some e =>
        dsimp only
        by_cases hse : s + 1 ≥ e
        · rw [if_pos hse]
        · rw [if_neg hse]
          have hget := strIndex_getElem he
          have hne : kCommentStart ≠ kCommentEnd := by decide
          have helt : e < u.length := by
            by_contra hge
            push_neg at hge
            rw [List.getElem?_append_right hge] at hget
            rcases Nat.eq_or_lt_of_le hge with heq | hlt
            · rw [← heq, Nat.sub_self] at hget
              simp at hget
              exact hne hget
            · have : e - u.length = (e - u.length - 1) + 1 := by omega
              rw [this] at hget
              simp only [List.getElem?_cons_succ] at hget
              exact hv (List.getElem?_mem hget)
          have hdrop : (u ++ kCommentStart :: v).drop (e + 1)
              = u.drop (e + 1) ++ kCommentStart :: v :=
            List.drop_append_of_le_length (by omega)
          rw [hdrop, ih (u.drop (e + 1)) v (by simp at hlen ⊢; omega) hv]

set_option maxRecDepth 2000 in
/-- C9: a text span delimited by a matching pair of full-width
parentheses (no parenthesis glyph inside the span or before it) is
rewritten to a `{\scriptsize …}` inline span, with the text before it
unchanged and the rest of the line processed recursively; and a line
containing an opening full-width parenthesis with no closing parenthesis
anywhere after it is a fatal parse error. -/
theorem c9_inline_comments :
    (∀ pre inner rest : Line,
      kCommentStart ∉ pre → kCommentEnd ∉ pre →
      kCommentStart ∉ inner → kCommentEnd ∉ inner → inner ≠ [] →
      ReplaceCommentWithScript (pre ++ kCommentStart :: inner ++ kCommentEnd :: rest)
        = (ReplaceCommentWithScript rest).map
            (fun r => pre ++ scriptPre ++ inner ++ '\x7d' :: r)) ∧
    (∀ u v : Line, kCommentEnd ∉ v →
      ReplaceCommentWithScript (u ++ kCommentStart :: v) = none) := by
  constructor
  · intro pre inner rest hp1 hp2 hi1 hi2 hne
    have hsne : kCommentStart ≠ kCommentEnd := by decide
    have hform : pre ++ kCommentStart :: inner ++ kCommentEnd :: rest
        = pre ++ (kCommentStart :: (inner ++ kCommentEnd :: rest)) := by simp
    have hs : strIndex kCommentStart
        (pre ++ kCommentStart :: inner ++ kCommentEnd :: rest) = some pre.length := by
      rw [hform, strIndex_append_of_not_mem _ hp1, strIndex_cons_self]
      simp
    have he : strIndex kCommentEnd
        (pre ++ kCommentStart :: inner ++ kCommentEnd :: rest)
        = some (pre.length + 1 + inner.length) := by
      rw [hform, strIndex_append_of_not_mem _ hp2, strIndex_cons_ne _ hsne,
          strIndex_append_of_not_mem _ hi2, strIndex_cons_self]
      simp
      omega
    have hinner : 0 < inner.length := List.length_pos.mpr hne
    rw [ReplaceCommentWithScript, rcwsFuel, hs, he]
    dsimp only
    rw [if_neg (by omega)]
    have htake1 : (pre ++ kCommentStart :: inner ++ kCommentEnd :: rest).take pre.length
        = pre := by
      rw [hform]
      exact List.take_left pre (kCommentStart :: (inner ++ kCommentEnd :: rest))
    have hlen2 : (pre ++ kCommentStart :: inner).length
        = pre.length + 1 + inner.length := by simp; omega
    have htake2 : (pre ++ kCommentStart :: inner ++ kCommentEnd :: rest).take
        (pre.length + 1 + inner.length) = pre ++ kCommentStart :: inner := by
      rw [← hlen2]
      exact List.take_left (pre ++ kCommentStart :: inner) (kCommentEnd :: rest)
    have hdrop2 : (pre ++ kCommentStart :: inner).drop (pre.length + 1) = inner := by
      have hre : pre ++ kCommentStart :: inner = (pre ++ [kCommentStart]) ++ inner := by
        simp
      have hlen : (pre ++ [kCommentStart]).length = pre.length + 1 := by simp
      rw [hre, ← hlen, List.drop_left]
    have hdrop3 : (pre ++ kCommentStart :: inner ++ kCommentEnd :: rest).drop
        (pre.length + 1 + inner.length + 1) = rest := by
      have hre : pre ++ kCommentStart :: inner ++ kCommentEnd :: rest
          = ((pre ++ kCommentStart :: inner) ++ [kCommentEnd]) ++ rest := by simp
      have hlen : ((pre ++ kCommentStart :: inner) ++ [kCommentEnd]).length
          = pre.length + 1 + inner.length + 1 := by simp; omega
      rw [hre, ← hlen, List.drop_left]
    rw [htake1, htake2, hdrop2, hdrop3]
    have hfuel : rcwsFuel
        (pre ++ kCommentStart :: inner ++ kCommentEnd :: rest).length rest
        = rcwsFuel (rest.length + 1) rest := by
      apply rcwsFuel_congr
      · simp
        omega
      · omega
    rw [hfuel]
    show (match ReplaceCommentWithScript rest with
          | none => none
          | some r => some (pre ++ scriptPre ++ inner ++ '\x7d' :: r)) = _
    cases ReplaceCommentWithScript rest <;> rfl
  · intro u v hv
    exact rcwsFuel_unmatched _ u v (by omega) hv

/-- Witness for `c9_inline_comments`: the span rewriting at
`a（b）c` and the fatal unmatched opening at `x（y`. -/
theorem c9_inline_comments_witness :
    ReplaceCommentWithScript
        ("a".data ++ kCommentStart :: "b".data ++ kCommentEnd :: "c".data)
      = (ReplaceCommentWithScript "c".data).map
          (fun r => "a".data ++ scriptPre ++ "b".data ++ '\x7d' :: r) ∧
    ReplaceCommentWithScript ("x".data ++ kCommentStart :: "y".data) = none :=
  ⟨c9_inline_comments.1 "a".data "b".data "c".data
     (by decide) (by decide) (by decide) (by decide) (by decide),
   c9_inline_comments.2 "x".data "y".data (by decide)⟩

/-! ## Claim C6: table rectangularity -/

lemma convGo_err (st : TexState) (ls : List Line) (h : st.err.isSome) :
    convGo st ls = st := by
  cases ls <;> simp [convGo, h]

lemma convStep_fence_open (st : TexState)
    (htitle : st.title ≠ []) (hauthor : st.author ≠ [])
    (hintable : st.inTable = false) :
    convStep st kTableFence = { st with inTable := true, tableRows := [] } := by
  have h1 : goTrim kTableFence = kTableFence := by decide
  have h2 : kTableFence ≠ ([] : Line) := by decide
  simp [convStep, h1, h2, hintable, htitle, hauthor]

lemma convStep_table_row (st : TexState) (r : Line)
    (hintable : st.inTable = true) (htrim : goTrim r = r)
    (hfence : r ≠ kTableFence) :
    convStep st r = { st with tableRows := st.tableRows ++ [r] } := by
  simp [convStep, hintable, htrim, hfence]

lemma convStep_fence_close (st : TexState) (hintable : st.inTable = true) :
    convStep st kTableFence = emitTable st := by
  have h1 : goTrim kTableFence = kTableFence := by decide
  simp [convStep, h1, hintable]

lemma emitRowsGo_none_uniform (n : Nat) :
    ∀ rows : List Line, (emitRowsGo n rows).2 = none →
      ∀ r ∈ rows, (List.splitOn '|' r).length = n := by
  intro rows
  induction rows with
  | nil => intro _ r hr; simp at hr
  | cons row rows ih =>
    intro h r hr
    by_cases hc : (List.splitOn '|' row).length ≠ n
    · rw [emitRowsGo, if_pos hc] at h
      simp at h
    · rw [emitRowsGo, if_neg hc] at h
      push_neg at hc
      rcases List.mem_cons.mp hr with hr | hr

      · rw [hr]; exact hc
      · exact ih h r hr

lemma rows_ne_fence_of_cols {r : Line} {n : Nat}
    (h : (List.splitOn '|' r).length = n) (hn : n ≠ 1) : r ≠ kTableFence := by
  intro hr
  rw [hr] at h
  have : (List.splitOn '|' kTableFence).length = 1 := by decide
  omega

/-- C6: every table row must have the same column count as the table's
first row (compilation succeeds only under that invariant), and for a
table with column counts [3, 3, 2] the compilation fails fatally at the
third row: the emitted output ends with the renderings of the first two
rows and contains nothing of the third. -/
theorem c6_table_rectangularity :
    (∀ (row : Line) (rows : List Line), (emitRows (row :: rows)).2 = none →
      ∀ r ∈ rows, (List.splitOn '|' r).length = (List.splitOn '|' row).length) ∧
    (∀ (st : TexState) (r1 r2 r3 : Line) (rest : List Line),
      st.err = none → st.title ≠ [] → st.author ≠ [] → st.inTable = false →
      goTrim r1 = r1 → goTrim r2 = r2 → goTrim r3 = r3 →
      (List.splitOn '|' r1).length = 3 → (List.splitOn '|' r2).length = 3 →
      (List.splitOn '|' r3).length = 2 →
      (convGo st (kTableFence :: r1 :: r2 :: r3 :: kTableFence :: rest)).err
          = some (.columnMismatch r3 3) ∧
      (convGo st (kTableFence :: r1 :: r2 :: r3 :: kTableFence :: rest)).out
          = st.out ++ tablePre ++
            [beginLtab 3, hlineL, renderRow (List.splitOn '|' r1),
             renderRow (List.splitOn '|' r2)]) := by
  constructor
  · intro row rows h r hr
    rw [emitRows] at h
    exact emitRowsGo_none_uniform _ rows h r hr
  · intro st r1 r2 r3 rest herr htitle hauthor hintable ht1 ht2 ht3 hc1 hc2 hc3
    have hf1 : r1 ≠ kTableFence := rows_ne_fence_of_cols hc1 (by omega)
    have hf2 : r2 ≠ kTableFence := rows_ne_fence_of_cols hc2 (by omega)
    have hf3 : r3 ≠ kTableFence := rows_ne_fence_of_cols hc3 (by omega)
    have e1 : convGo st (kTableFence :: r1 :: r2 :: r3 :: kTableFence :: rest)
        = convGo (convStep st kTableFence) (r1 :: r2 :: r3 :: kTableFence :: rest) := by
      rw [convGo, herr]
      rfl
    rw [e1, convStep_fence_open st htitle hauthor hintable]
    set st1 : TexState := { st with inTable := true, tableRows := [] } with hst1
    have herr1 : st1.err = none := herr
    have e2 : convGo st1 (r1 :: r2 :: r3 :: kTableFence :: rest)
        = convGo (convStep st1 r1) (r2 :: r3 :: kTableFence :: rest) := by
      rw [convGo, herr1]
      rfl
    rw [e2, convStep_table_row st1 r1 rfl ht1 hf1]
    set st2 : TexState := { st1 with tableRows := st1.tableRows ++ [r1] } with hst2
    have herr2 : st2.err = none := herr
    have e3 : convGo st2 (r2 :: r3 :: kTableFence :: rest)
        = convGo (convStep st2 r2) (r3 :: kTableFence :: rest) := by
      rw [convGo, herr2]
      rfl
    rw [e3, convStep_table_row st2 r2 rfl ht2 hf2]
    set st3 : TexState := { st2 with tableRows := st2.tableRows ++ [r2] } with hst3
    have herr3 : st3.err = none := herr
    have e4 : convGo st3 (r3 :: kTableFence :: rest)
        = convGo (convStep st3 r3) (kTableFence :: rest) := by
      rw [convGo, herr3]
      rfl
    rw [e4, convStep_table_row st3 r3 rfl ht3 hf3]
    set st4 : TexState := { st3 with tableRows := st3.tableRows ++ [r3] } with hst4
    have herr4 : st4.err = none := herr
    have e5 : convGo st4 (kTableFence :: rest)
        = convGo (convStep st4 kTableFence) rest := by
      rw [convGo, herr4]
      rfl
    rw [e5, convStep_fence_close st4 rfl]
    have hrows : st4.tableRows = [r1, r2, r3] := by
      rw [hst4, hst3, hst2]
      simp
    have hemit : emitRows [r1, r2, r3]
        = ([beginLtab 3, hlineL, renderRow (List.splitOn '|' r1),
            renderRow (List.splitOn '|' r2)],
           some (.columnMismatch r3 3)) := by
      rw [emitRows, hc1]
      rw [emitRowsGo, if_neg (by omega)]
      rw [emitRowsGo, if_pos (by omega)]
    have hemitTable : emitTable st4
        = { st4 with
            inTable := false, tableRows := [],
            out := st4.out ++ tablePre ++
              [beginLtab 3, hlineL, renderRow (List.splitOn '|' r1),
               renderRow (List.splitOn '|' r2)],
            err := some (.columnMismatch r3 3) } := by
      rw [emitTable, if_neg (by rw [hrows]; simp), hrows, hemit]
      simp
    rw [hemitTable, convGo_err _ rest (by simp)]
    constructor
    · rfl
    · show st4.out ++ _ ++ _ = _
      rw [hst4, hst3, hst2, hst1]

/-- Witness for the hypothesis-bearing part of `c6_table_rectangularity`
at a concrete [3,3,2] table. -/
theorem c6_table_rectangularity_witness :
    (convGo { title := "T".data, author := "A".data }
        [kTableFence, "a|b|c".data, "d|e|f".data, "g|h".data, kTableFence,
         "zzz".data]).err
      = some (.columnMismatch "g|h".data 3) ∧
    (convGo { title := "T".data, author := "A".data }
        [kTableFence, "a|b|c".data, "d|e|f".data, "g|h".data, kTableFence,
         "zzz".data]).out
      = ([] : List Line) ++ tablePre ++
        [beginLtab 3, hlineL, renderRow (List.splitOn '|' "a|b|c".data),
         renderRow (List.splitOn '|' "d|e|f".data)] :=
  c6_table_rectangularity.2 { title := "T".data, author := "A".data }
    "a|b|c".data "d|e|f".data "g|h".data ["zzz".data]
    (by decide) (by decide) (by decide) (by decide) (by decide) (by decide)
    (by decide) (by decide) (by decide) (by decide)

/-! ## Claim C8 (amended): idempotence on whitespace-free canonical input -/

lemma getLast?_elim_ne_nil {cs : List Char} (h : cs ≠ []) (d d' : Bool)
    (f : Char → Bool) :
    cs.getLast?.elim d f = cs.getLast?.elim d' f := by
  match cs, h with
  | c :: cs, _ =>
    cases hgl : (c :: cs).getLast? with
    | none => simp at hgl
    | some y => rfl

lemma getLast?_elim_cons (c : Char) (cs : List Char) (d : Bool)
    (f : Char → Bool) :
    ((c :: cs).getLast?).elim d f = (cs.getLast?).elim (f c) f := by
  cases cs with
  | nil => rfl
  | cons c' cs' =>
    rw [List.getLast?_cons_cons]
    exact getLast?_elim_ne_nil (by simp) d (f c) f

lemma charStep_quote_open (c : Char) (sp ce : Bool)
    (hsp : isGoSpace c = false) (hq : isQuoteGlyph c = true) :
    charStep ⟨false, sp, ce⟩ c = (⟨true, sp, false⟩, some startQuote) := by
  rw [charStep_quote c false sp ce hsp hq]
  rfl

lemma charStep_quote_close (c : Char) (sp ce : Bool)
    (hsp : isGoSpace c = false) (hq : isQuoteGlyph c = true) :
    charStep ⟨true, sp, ce⟩ c = (⟨false, sp, true⟩, some endQuote) := by
  rw [charStep_quote c true sp ce hsp hq]
  rfl

lemma quotesOk_cons_start (b : Bool) (cs : List Char) :
    quotesOk b (startQuote :: cs) = (!b && quotesOk true cs) := by
  rw [quotesOk]
  simp

lemma quotesOk_cons_end (b : Bool) (cs : List Char) :
    quotesOk b (endQuote :: cs) = (b && quotesOk false cs) := by
  rw [quotesOk]
  simp [show ¬endQuote = startQuote from by decide]

lemma quotesOk_cons_other {c : Char} (b : Bool) (cs : List Char)
    (h1 : c ≠ startQuote) (h2 : c ≠ endQuote) :
    quotesOk b (c :: cs) = quotesOk b cs := by
  rw [quotesOk, if_neg h1, if_neg h2]

/-- A whitespace-free line with canonically alternating balanced quotes
passes through the character scan unchanged: everything is emitted as
is, the quote state ends closed, the space flag is untouched, and the
could-end flag ends up reflecting the line's last character. -/
lemma scanLine_clean : ∀ (cs : List Char) (b sp ce : Bool),
    (∀ c ∈ cs, isGoSpace c = false) →
    quotesOk b cs = true →
    (scanLine ⟨b, sp, ce⟩ cs).2 = cs ∧
    (scanLine ⟨b, sp, ce⟩ cs).1.inQuote = false ∧
    (scanLine ⟨b, sp, ce⟩ cs).1.isSpace = sp ∧
    (scanLine ⟨b, sp, ce⟩ cs).1.couldEnd = cs.getLast?.elim ce isTerminalPunct := by
  intro cs
  induction cs with
  | nil =>
    intro b sp ce _ hq
    have hb : b = false := by
      simpa [quotesOk] using hq
    subst hb
    simp [scanLine]
  | cons c cs ih =>
    intro b sp ce hsp hq
    have hspc : isGoSpace c = false := hsp c (by simp)
    have hsps : ∀ x ∈ cs, isGoSpace x = false := fun x hx => hsp x (by simp [hx])
    rw [scanLine]
    by_cases hc1 : c = startQuote
    · subst hc1
      rw [quotesOk_cons_start, Bool.and_eq_true, Bool.not_eq_true'] at hq
      obtain ⟨hb, hq'⟩ := hq
      subst hb
      have hqg : isQuoteGlyph startQuote = true := by decide
      rw [charStep_quote_open startQuote sp ce hspc hqg]
      have hrec := ih true sp false hsps hq'
      refine ⟨?_, hrec.2.1, hrec.2.2.1, ?_⟩
      · rw [hrec.1]
        rfl
      · rw [hrec.2.2.2, getLast?_elim_cons]
        rfl
    · by_cases hc2 : c = endQuote
      · subst hc2
        rw [quotesOk_cons_end, Bool.and_eq_true] at hq
        obtain ⟨hb, hq'⟩ := hq
        subst hb
        have hqg : isQuoteGlyph endQuote = true := by decide
        rw [charStep_quote_close endQuote sp ce hspc hqg]
        have hrec := ih false sp true hsps hq'
        refine ⟨?_, hrec.2.1, hrec.2.2.1, ?_⟩
        · rw [hrec.1]
          rfl
        · rw [hrec.2.2.2, getLast?_elim_cons]
          rfl
      · have hqg : isQuoteGlyph c = false := by
          simp [isQuoteGlyph, hc1, hc2]
        have hq' : quotesOk b cs = true := by
          rw [quotesOk_cons_other b cs hc1 hc2] at hq
          exact hq
        rw [charStep_plain c b sp ce hspc hqg]
        have hrec := ih b sp (isTerminalPunct c) hsps hq'
        refine ⟨?_, hrec.2.1, hrec.2.2.1, ?_⟩
        · rw [hrec.1]
          rfl
        · rw [hrec.2.2.2, getLast?_elim_cons]

/-- A canonical paragraph line is flushed unchanged as one output line,
leaving the buffer empty and the quote state closed. -/
lemma formatStep_para_canon (st : FmtState) (raw : Line)
    (hnf : goTrim raw ≠ kTableFence)
    (ht : st.title ≠ []) (ha : st.author ≠ [])
    (hit : st.inTable = false) (hhd : (goTrim raw).head? ≠ some '+')
    (hb : st.buffer = []) (hq : st.inQuote = false)
    (htrim : goTrim raw = raw) (hcanon : canonPara raw = true) :
    formatStep st raw
      = { st with lineNumber := st.lineNumber + 1, couldEnd := true,
                  inQuote := false, buffer := [],
                  out := st.out ++ [raw] } := by
  rw [canonPara, Bool.and_eq_true, Bool.and_eq_true, Bool.and_eq_true] at hcanon
  obtain ⟨⟨⟨hne', hnos⟩, hqok⟩, hterm⟩ := hcanon
  have hne : raw ≠ [] := by
    intro hraw
    rw [hraw] at hne'
    simp at hne'
  have hall : ∀ c ∈ raw, isGoSpace c = false := by
    intro c hc
    have := List.all_eq_true.mp hnos c hc
    simpa using this
  have hscan := scanLine_clean raw false st.isSpace st.couldEnd hall hqok
  have hce : (scanLine ⟨false, st.isSpace, st.couldEnd⟩ raw).1.couldEnd = true := by
    rw [hscan.2.2.2]
    cases hgl : raw.getLast? with
    | none =>
      rw [hgl] at hterm
      simp [Option.elim] at hterm
    | some y =>
      rw [hgl] at hterm
      exact hterm
  have hiq : (scanLine ⟨false, st.isSpace, st.couldEnd⟩ raw).1.inQuote = false :=
    hscan.2.1
  have hisp : (scanLine ⟨false, st.isSpace, st.couldEnd⟩ raw).1.isSpace
      = st.isSpace := hscan.2.2.1
  have hemit : (scanLine ⟨false, st.isSpace, st.couldEnd⟩ raw).2 = raw := hscan.1
  have hne2 : ¬goTrim raw = [] := by rw [htrim]; exact hne
  have hnf' : raw ≠ kTableFence := by rw [htrim] at hnf; exact hnf
  have hhd' : raw.head? ≠ some '+' := by rw [htrim] at hhd; exact hhd
  simp only [formatStep, htrim]
  simp [hne, ht, ha, hnf', hhd', hit, hq, hb, hemit, hiq, hisp, hce]

lemma formatFinish_clean (st : FmtState)
    (he : st.err = none) (hb : st.buffer = []) (hq : st.inQuote = false) :
    formatFinish st = st := by
  simp [formatFinish, he, hb, hq]

/-- The body-lines invariant of the idempotence theorem: from a state
with an empty buffer and a closed quote, canonical body lines are echoed
verbatim and the state returns to empty-buffer/closed-quote. -/
lemma formatGo_canon : ∀ (body : List Line) (st : FmtState),
    st.err = none → st.buffer = [] → st.inQuote = false →
    st.title ≠ [] → st.author ≠ [] →
    canonBody st.inTable body = true →
    (formatGo st body).out = st.out ++ body ∧
    (formatGo st body).err = none ∧
    (formatGo st body).buffer = [] ∧
    (formatGo st body).inQuote = false := by
  intro body
  induction body with
  | nil =>
    intro st herr hb hq _ _ _
    simp [formatGo, herr, hb, hq]
  | cons l ls ih =>
    intro st herr hb hq ht ha hcanon
    rw [canonBody, Bool.and_eq_true] at hcanon
    obtain ⟨hline, hcanon⟩ := hcanon
    rw [Bool.and_eq_true] at hline
    obtain ⟨hne', htrim'⟩ := hline
    have hne : l ≠ [] := by
      intro hraw
      rw [hraw] at hne'
      simp at hne'
    have htrim : goTrim l = l := by
      simpa using htrim'
    have hgo : formatGo st (l :: ls) = formatGo (formatStep st l) ls := by
      rw [formatGo]
      simp [herr]
    rw [hgo]
    by_cases hfence : l = kTableFence
    · rw [if_pos hfence] at hcanon
      have hstep := formatStep_fence_ok st l (by rw [htrim, hfence]) ht ha hb hq
      rw [hstep]
      have hrec := ih
        { st with
          lineNumber := st.lineNumber + 1,
          inTable := !st.inTable,
          out := st.out ++ [kTableFence] }
        herr hb hq ht ha hcanon
      refine ⟨?_, hrec.2.1, hrec.2.2.1, hrec.2.2.2⟩
      rw [hrec.1, hfence]
      simp
    · rw [if_neg hfence] at hcanon
      by_cases hverb : st.inTable = true ∨ (goTrim l).head? = some '+'
      · have hcanon' : canonBody st.inTable ls = true := by
          rcases hverb with hv | hv
          · rw [if_pos (by rw [hv]; simp)] at hcanon
            exact hcanon
          · rw [htrim] at hv
            rw [if_pos (by rw [hv]; simp)] at hcanon
            exact hcanon
        have hstep := formatStep_verbatim_ok st l (by rw [htrim]; exact hne)
          (by rw [htrim]; exact hfence) ht ha hverb hb hq
        rw [hstep]
        have hrec := ih
          { st with
            lineNumber := st.lineNumber + 1,
            out := st.out ++ [goTrim l] }
          herr hb hq ht ha hcanon'
        refine ⟨?_, hrec.2.1, hrec.2.2.1, hrec.2.2.2⟩
        rw [hrec.1, htrim]
        simp
      · push_neg at hverb
        have hit : st.inTable = false := by
          have := hverb.1
          simp at this
          exact this
        have hcanon2 : (canonPara l && canonBody st.inTable ls) = true := by
          rw [if_neg (by simp [hit]; rw [htrim] at hverb; exact hverb.2)] at hcanon
          exact hcanon
        rw [Bool.and_eq_true] at hcanon2
        obtain ⟨hpara, hcanon'⟩ := hcanon2
        have hstep := formatStep_para_canon st l
          (by rw [htrim]; exact hfence) ht ha hit hverb.2 hb hq htrim hpara
        rw [hstep]
        have hrec := ih
          { st with
            lineNumber := st.lineNumber + 1,
            couldEnd := true,
            inQuote := false,
            buffer := [],
            out := st.out ++ [l] }
          herr rfl rfl ht ha (by simpa [hit] using hcanon')
        refine ⟨?_, hrec.2.1, hrec.2.2.1, hrec.2.2.2⟩
        rw [hrec.1]
        simp

/-- C8 (amended): the Normalizer is idempotent on canonical input whose
lines contain no whitespace: each line trimmed and non-blank, the first
two captured as title and author, and every paragraph line built of
whitespace-free text with canonically alternating balanced quotes and a
terminal final glyph.  Such input is reproduced unchanged, with no
error. -/
theorem c8_idempotent_amended (ls : List Line) (h : canonical ls = true) :
    (format ls).out = ls ∧ (format ls).err = none := by
  cases ls with
  | nil => exact ⟨rfl, rfl⟩
  | cons t rest =>
    cases rest with
    | nil =>
      have h1 : canonical [t] = ((!t.isEmpty && decide (goTrim t = t)) && true) := rfl
      rw [h1, Bool.and_eq_true, Bool.and_eq_true] at h
      obtain ⟨⟨htne', httrim'⟩, _⟩ := h
      have htne : t ≠ [] := by
        intro ht; rw [ht] at htne'; simp at htne'
      have httrim : goTrim t = t := by simpa using httrim'
      rw [format, formatGo]
      rw [show (({} : FmtState)).err.isSome = false from rfl]
      simp only [Bool.false_eq_true, if_false]
      rw [formatGo, formatStep_title {} t (by rw [httrim]; exact htne) rfl, httrim]
      rw [formatFinish_clean _ rfl rfl rfl]
      exact ⟨rfl, rfl⟩
    | cons a body =>
      have h1 : canonical (t :: a :: body)
          = ((!t.isEmpty && decide (goTrim t = t)) &&
             ((!a.isEmpty && decide (goTrim a = a)) && canonBody false body)) := rfl
      rw [h1, Bool.and_eq_true] at h
      obtain ⟨htl, h⟩ := h
      rw [Bool.and_eq_true] at htl
      obtain ⟨htne', httrim'⟩ := htl
      have htne : t ≠ [] := by
        intro ht; rw [ht] at htne'; simp at htne'
      have httrim : goTrim t = t := by simpa using httrim'
      rw [Bool.and_eq_true] at h
      obtain ⟨hal, hbody⟩ := h
      rw [Bool.and_eq_true] at hal
      obtain ⟨hane', hatrim'⟩ := hal
      have hane : a ≠ [] := by
        intro ha; rw [ha] at hane'; simp at hane'
      have hatrim : goTrim a = a := by simpa using hatrim'
      rw [format, formatGo]
      rw [show (({} : FmtState)).err.isSome = false from rfl]
      simp only [Bool.false_eq_true, if_false]
      rw [formatStep_title {} t (by rw [httrim]; exact htne) rfl, httrim]
      rw [formatGo]
      rw [show ({ lineNumber := 1, out := [t], title := t } : FmtState).err.isSome
            = false from rfl]
      simp only [Bool.false_eq_true, if_false]
      rw [formatStep_author _ a (by rw [hatrim]; exact hane) (by exact htne) rfl,
          hatrim]
      have hcanon := formatGo_canon body
        { lineNumber := 2, out := [t] ++ [a], title := t, author := a }
        rfl rfl rfl htne hane (by exact hbody)
      show (formatFinish (formatGo
              { lineNumber := 2, out := [t] ++ [a], title := t, author := a }
              body)).out = t :: a :: body ∧
           (formatFinish (formatGo
              { lineNumber := 2, out := [t] ++ [a], title := t, author := a }
              body)).err = none
      rw [formatFinish_clean _ hcanon.2.1 hcanon.2.2.1 hcanon.2.2.2]
      refine ⟨?_, hcanon.2.1⟩
      rw [hcanon.1]
      rfl

/-- Witness for `c8_idempotent_amended`: a canonical document with a
marker line, a quoted paragraph, a table and a final paragraph. -/
theorem c8_idempotent_amended_witness :
    (format ["T".data, "A".data, "+X".data, "“a。”".data, kTableFence,
             "r|s".data, kTableFence, "b。".data]).out
      = ["T".data, "A".data, "+X".data, "“a。”".data, kTableFence,
         "r|s".data, kTableFence, "b。".data] ∧
    (format ["T".data, "A".data, "+X".data, "“a。”".data, kTableFence,
             "r|s".data, kTableFence, "b。".data]).err = none :=
  c8_idempotent_amended
    ["T".data, "A".data, "+X".data, "“a。”".data, kTableFence,
     "r|s".data, kTableFence, "b。".data] (by decide)

/-! ## Claim C10: unterminated table -/

lemma convStep_title (st : TexState) (raw : Line)
    (hintable : st.inTable = false) (hne : goTrim raw ≠ [])
    (htitle : st.title = []) :
    convStep st raw = { st with title := goTrim raw } := by
  simp [convStep, hintable, hne, htitle]

lemma convStep_author (st : TexState) (raw : Line)
    (hintable : st.inTable = false) (hne : goTrim raw ≠ [])
    (htitle : st.title ≠ []) (hauthor : st.author = []) :
    convStep st raw
      = { st with
          author := goTrim raw,
          out := st.out ++ [GetTitlePage st.title (goTrim raw),
                            "\\tableofcontents\x7b\x7d".data,
                            "\\newpage".data] } := by
  simp [convStep, hintable, hne, htitle, hauthor]

lemma convStep_table_row_trim (st : TexState) (r : Line)
    (hintable : st.inTable = true) (hfence : goTrim r ≠ kTableFence) :
    convStep st r = { st with tableRows := st.tableRows ++ [goTrim r] } := by
  simp [convStep, hintable, hfence]

lemma convGo_inTable_rows (st : TexState) (rows : List Line)
    (herr : st.err = none) (hintable : st.inTable = true)
    (hfence : ∀ r ∈ rows, goTrim r ≠ kTableFence) :
    convGo st rows = { st with tableRows := st.tableRows ++ rows.map goTrim } := by
  induction rows generalizing st with
  | nil => simp [convGo]
  | cons r rs ih =>
    have h1 : convGo st (r :: rs) = convGo (convStep st r) rs := by
      rw [convGo, herr]
      rfl
    rw [h1, convStep_table_row_trim st r hintable (hfence r (by simp))]
    rw [ih { st with tableRows := st.tableRows ++ [goTrim r] } herr hintable
          (fun x hx => hfence x (by simp [hx]))]
    simp

lemma emitRowsGo_uniform (n : Nat) :
    ∀ rows : List Line, (∀ r ∈ rows, (List.splitOn '|' r).length = n) →
      emitRowsGo n rows
        = (rows.map (fun r => renderRow (List.splitOn '|' r)), none) := by
  intro rows
  induction rows with
  | nil => intro _; rfl
  | cons row rows ih =>
    intro h
    have hrow : (List.splitOn '|' row).length = n := h row (by simp)
    rw [emitRowsGo, if_neg (by omega)]
    rw [ih (fun r hr => h r (by simp [hr]))]
    rfl

lemma emitRows_uniform (rows : List Line) (n : Nat) (hne : rows ≠ [])
    (hcols : ∀ r ∈ rows, (List.splitOn '|' r).length = n) :
    emitRows rows
      = (beginLtab n :: hlineL
           :: rows.map (fun r => renderRow (List.splitOn '|' r)), none) := by
  match rows, hne with
  | row :: rows, _ =>
    have hrow : (List.splitOn '|' row).length = n := hcols row (by simp)
    rw [emitRows, hrow]
    rw [emitRowsGo_uniform n rows (fun r hr => hcols r (by simp [hr]))]
    rfl

/-- C10 (amended): if the input ends while the compiler is inside a
table block and the accumulated rows share a uniform column count, all
remaining lines are emitted as one complete table environment followed
by the document-end marker, and no error is reported for the missing
closing fence. -/
theorem c10_unterminated_table_amended (t a : Line) (rows : List Line) (n : Nat)
    (ht : goTrim t = t) (htne : t ≠ []) (ha : goTrim a = a) (hane : a ≠ [])
    (hrows : rows ≠ [])
    (hfence : ∀ r ∈ rows, goTrim r ≠ kTableFence)
    (hcols : ∀ r ∈ rows, (List.splitOn '|' (goTrim r)).length = n) :
    (convertToTex (t :: a :: kTableFence :: rows)).err = none ∧
    (convertToTex (t :: a :: kTableFence :: rows)).out
      = headerLines
        ++ [GetTitlePage t a, "\\tableofcontents\x7b\x7d".data, "\\newpage".data]
        ++ tablePre
        ++ (beginLtab n :: hlineL
              :: rows.map (fun r => renderRow (List.splitOn '|' (goTrim r))))
        ++ tablePost
        ++ ["\\end\x7bdocument\x7d".data] := by
  set st0 : TexState := { out := headerLines } with hst0
  have e1 : convGo st0 (t :: a :: kTableFence :: rows)
      = convGo (convStep st0 t) (a :: kTableFence :: rows) := by
    rw [convGo]
    rfl
  have s1 : convStep st0 t = { st0 with title := t } := by
    rw [convStep_title st0 t rfl (by rw [ht]; exact htne) rfl, ht]
  set st1 : TexState := { st0 with title := t } with hst1
  have e2 : convGo st1 (a :: kTableFence :: rows)
      = convGo (convStep st1 a) (kTableFence :: rows) := by
    rw [convGo]
    rfl
  have s2 : convStep st1 a
      = { st1 with
          author := a,
          out := st1.out ++ [GetTitlePage t a,
                             "\\tableofcontents\x7b\x7d".data,
                             "\\newpage".data] } := by
    rw [convStep_author st1 a rfl (by rw [ha]; exact hane) htne rfl, ha]
  set st2 : TexState :=
    { st1 with
      author := a,
      out := st1.out ++ [GetTitlePage t a, "\\tableofcontents\x7b\x7d".data,
                         "\\newpage".data] } with hst2
  have e3 : convGo st2 (kTableFence :: rows)
      = convGo (convStep st2 kTableFence) rows := by
    rw [convGo]
    rfl
  have s3 : convStep st2 kTableFence = { st2 with inTable := true, tableRows := [] } :=
    convStep_fence_open st2 htne hane rfl
  set st3 : TexState := { st2 with inTable := true, tableRows := [] } with hst3
  have e4 : convGo st3 rows = { st3 with tableRows := rows.map goTrim } := by
    rw [convGo_inTable_rows st3 rows rfl rfl hfence]
    simp
  set st4 : TexState := { st3 with tableRows := rows.map goTrim } with hst4
  have hrowsne : st4.tableRows ≠ [] := by
    simp only [hst4]
    simp [hrows]
  have hcols' : ∀ r ∈ rows.map goTrim, (List.splitOn '|' r).length = n := by
    intro r hr
    obtain ⟨x, hx, rfl⟩ := List.mem_map.mp hr
    exact hcols x hx
  have hemit : emitTable st4
      = { st4 with
          inTable := false, tableRows := [],
          out := st4.out ++ tablePre ++
            (beginLtab n :: hlineL
               :: (rows.map goTrim).map (fun r => renderRow (List.splitOn '|' r)))
            ++ tablePost,
          err := none } := by
    rw [emitTable, if_neg hrowsne]
    rw [emitRows_uniform st4.tableRows n hrowsne hcols']
    simp
  have herr4 : st4.err = none := rfl
  have hintable4 : st4.inTable = true := rfl
  have hconv : convGo ({ out := headerLines } : TexState)
      (t :: a :: kTableFence :: rows) = st4 := by
    rw [← hst0, e1, s1, e2, s2, e3, s3, e4]
  have heof : convEof st4
      = { st4 with
          inTable := false, tableRows := [],
          out := st4.out ++ tablePre ++
            (beginLtab n :: hlineL
               :: (rows.map goTrim).map (fun r => renderRow (List.splitOn '|' r)))
            ++ tablePost,
          err := none } := by
    rw [convEof, if_neg (by rw [herr4]; simp), if_pos hintable4, hemit]
  rw [convertToTex, hconv, heof, convEnd, if_neg (by simp)]
  constructor
  · rfl
  · show st4.out ++ _ ++ _ ++ _ ++ _ = _
    rw [hst4, hst3, hst2, hst1, hst0]
    simp [List.map_map]

/-- Witness for `c10_unterminated_table_amended` at a concrete
unterminated 2×2 table. -/
theorem c10_unterminated_table_amended_witness :
    (convertToTex ["T".data, "A".data, kTableFence, "a|b".data, "c|d".data]).err
      = none ∧
    (convertToTex ["T".data, "A".data, kTableFence, "a|b".data, "c|d".data]).out
      = headerLines
        ++ [GetTitlePage "T".data "A".data, "\\tableofcontents\x7b\x7d".data,
            "\\newpage".data]
        ++ tablePre
        ++ (beginLtab 2 :: hlineL
              :: ["a|b".data, "c|d".data].map
                   (fun r => renderRow (List.splitOn '|' (goTrim r))))
        ++ tablePost
        ++ ["\\end\x7bdocument\x7d".data] :=
  c10_unterminated_table_amended "T".data "A".data ["a|b".data, "c|d".data] 2
    (by decide) (by decide) (by decide) (by decide) (by decide) (by decide)
    (by decide)

/-- C10 (counterexample): the input ends inside a table block, and an
error IS reported — the accumulated rows have mismatched column counts,
so the rectangularity check fires during the end-of-input emission of
the unterminated table, contradicting "with no error reported" as an
unconditional statement about inputs that end inside a table block. -/
theorem c10_counterexample_error_in_unterminated_table :
    (convertToTex ["T".data, "A".data, kTableFence, "a|b".data, "c".data]).err
      = some (.columnMismatch "c".data 2) := by decide

end AC
